import Mathlib

/-!
# glMatrix.js: square matrices with flat column-major storage

A shallow embedding of `src/glMatrix.js`.  A matrix object carries the three
fields the constructor creates (`dimension`, `size`, `elements`).  Methods that
mutate their receiver return the receiver after the call; methods that may
throw return either an `Except` (for the methods that allocate a fresh result)
or an `Outcome`, which keeps the receiver next to the exception that escaped.

The element type `α` is left abstract: it stands for the JavaScript values
stored in `elements`, and the definitions use only its operators and literals.
Two readings of the number type are used.  Theorems that need algebraic laws ask
for them (`Semiring`, `Field`): this is exact arithmetic.  `Binary64` is the number
type of the language itself, with every operation rounded; statements evaluated
there show where a property of exact arithmetic is not a property of the program.
-/

namespace GLMatrixJS

/-- Value that JavaScript yields when an array slot that was never written is read. -/
class JSUndefined (α : Type) where
  undefined : α

/-- Integers as element type of the worked examples; the examples stay inside the
arrays, so the integer standing for `undefined` is never read. -/
instance : JSUndefined Int := ⟨0⟩

/-- Rationals as element type of the worked examples that divide. -/
instance : JSUndefined Rat := ⟨0⟩

/-- Real numbers as element type of the statements about sine and cosine. -/
instance : JSUndefined Real := ⟨0⟩

/-- Array read `xs[i]`: a slot past the end reads as `undefined`. -/
def jsGet {α : Type} [JSUndefined α] (xs : List α) (i : Nat) : α :=
  xs.getD i JSUndefined.undefined

/-- Array write `xs[i] = v`: a slot inside the array is replaced, a slot past the
end grows the array up to `i`, the skipped slots reading as `undefined`. -/
def jsSet {α : Type} [JSUndefined α] (xs : List α) (i : Nat) (v : α) : List α :=
  if i < xs.length then xs.set i v
  else xs ++ List.replicate (i - xs.length) JSUndefined.undefined ++ [v]

/-- The three `throw new Error(...)` sites of the module, named after their messages:
"Different matrices size" (SizeMismatch), "Invalid parameter type"
(InvalidOperandType) and "Wrong matrix dimension" (DimensionError). -/
inductive Error where
  | differentMatricesSize
  | invalidParameterType
  | wrongMatrixDimension
deriving DecidableEq, Repr

/-- The matrix object: the fields assigned by the constructor. -/
structure GLMatrix (α : Type) where
  dimension : Nat
  size : Nat
  elements : List α
deriving DecidableEq, Repr

/-- The argument of `mul`: `right instanceof GLMatrix`, `typeof right === "number"`,
or anything else. -/
inductive Operand (α : Type) where
  | matrix (right : GLMatrix α)
  | number (right : α)
  | other
deriving DecidableEq, Repr

/-- Result of a method that mutates its receiver and may throw: the receiver as the
call leaves it, and the exception that escaped, if any. -/
structure Outcome (α : Type) where
  receiver : GLMatrix α
  thrown : Option Error
deriving DecidableEq, Repr

/-- The members of the `Math` object used by the module. -/
structure JSMath (α : Type) where
  sqrt : α → α
  cos : α → α
  sin : α → α
  tan : α → α
  PI : α

/-! ## JavaScript numbers

The values the source computes with are IEEE 754 binary64 numbers.  `Binary64` is
that number type: the operators `+`, `-`, `*`, `/` and unary `-` compute the exact
result and round it to the nearest representable value, ties to even, with the
usual rules for `NaN`, the infinities and the signed zeros. -/

/-- A JavaScript number: `NaN`, plus or minus infinity, plus or minus zero, or a
finite non-zero value given by the rational it stands for. -/
inductive Binary64 where
  | nan
  | inf (negative : Bool)
  | zero (negative : Bool)
  | num (q : Rat)
deriving DecidableEq, Repr

namespace Binary64

/-- The rational `2 ^ e`. -/
def pow2 (e : Int) : Rat :=
  if 0 ≤ e then ((2 ^ e.toNat : Nat) : Rat) else 1 / ((2 ^ (-e).toNat : Nat) : Rat)

/-- Number of binary digits of `n`, counted with `fuel` halvings at most. -/
def bitLengthAux : Nat → Nat → Nat
  | 0, _ => 0
  | fuel + 1, n => if n = 0 then 0 else bitLengthAux fuel (n / 2) + 1

/-- Number of binary digits of `n`. -/
def bitLength (n : Nat) : Nat := bitLengthAux n n

/-- For a positive rational `q`, the integer `e` with `2 ^ e <= q < 2 ^ (e + 1)`. -/
def exponent (q : Rat) : Int :=
  let e0 : Int := (bitLength q.num.natAbs : Int) - (bitLength q.den : Int)
  if q < pow2 e0 then e0 - 1 else e0

/-- Nearest integer to a non-negative rational, a tie going to the even one. -/
def roundHalfEven (t : Rat) : Int :=
  let n := t.floor
  let rest := t - n
  if rest < 1 / 2 then n
  else if 1 / 2 < rest then n + 1
  else if n % 2 = 0 then n else n + 1

/-- The binary64 value nearest to the rational `q`, ties to even: 53 significant bits,
exponents from `-1022` (below which the spacing stays `2 ^ -1074`), infinity from
`2 ^ 1024` on.  An exact zero gives `+0`; a non-zero `q` that rounds to zero keeps
its sign. -/
def ofRat (q : Rat) : Binary64 :=
  if q = 0 then zero false
  else
    let a := |q|
    let e := max (exponent a) (-1022)
    let ulp := pow2 (e - 52)
    let r := (roundHalfEven (a / ulp) : Rat) * ulp
    if pow2 1024 ≤ r then inf (decide (q < 0))
    else if r = 0 then zero (decide (q < 0))
    else num (if q < 0 then -r else r)

/-- The number written `digits * 10 ^ (-places)` in decimal, as the source text
`0.1` is `decimal 1 1`. -/
def decimal (digits : Int) (places : Nat) : Binary64 :=
  ofRat (mkRat digits (10 ^ places))

/-- Sign bit. -/
def isNegative : Binary64 → Bool
  | nan => false
  | inf s => s
  | zero s => s
  | num q => decide (q < 0)

/-- Unary minus. -/
def neg : Binary64 → Binary64
  | nan => nan
  | inf s => inf (!s)
  | zero s => zero (!s)
  | num q => num (-q)

/-- Addition. -/
def add : Binary64 → Binary64 → Binary64
  | nan, _ => nan
  | _, nan => nan
  | inf s, inf t => if s = t then inf s else nan
  | inf s, _ => inf s
  | _, inf t => inf t
  | zero s, zero t => zero (s && t)
  | zero _, num q => num q
  | num p, zero _ => num p
  | num p, num q => ofRat (p + q)

/-- Multiplication. -/
def mul : Binary64 → Binary64 → Binary64
  | nan, _ => nan
  | _, nan => nan
  | inf _, zero _ => nan
  | zero _, inf _ => nan
  | inf s, y => inf (xor s y.isNegative)
  | x, inf t => inf (xor x.isNegative t)
  | zero s, y => zero (xor s y.isNegative)
  | x, zero t => zero (xor x.isNegative t)
  | num p, num q => ofRat (p * q)

/-- Division. -/
def div : Binary64 → Binary64 → Binary64
  | nan, _ => nan
  | _, nan => nan
  | inf _, inf _ => nan
  | zero _, zero _ => nan
  | inf s, y => inf (xor s y.isNegative)
  | x, inf t => zero (xor x.isNegative t)
  | zero s, y => zero (xor s y.isNegative)
  | x, zero t => inf (xor x.isNegative t)
  | num p, num q => ofRat (p / q)

instance : Zero Binary64 := ⟨zero false⟩
instance : One Binary64 := ⟨num 1⟩
instance : Add Binary64 := ⟨add⟩
instance : Neg Binary64 := ⟨neg⟩
instance : Sub Binary64 := ⟨fun x y => add x (neg y)⟩
instance : Mul Binary64 := ⟨mul⟩
instance : Div Binary64 := ⟨div⟩
instance (n : Nat) : OfNat Binary64 n := ⟨ofRat n⟩

/-- The members of `Math` on binary64 numbers, at the arguments the worked examples
pass: `PI` is the binary64 value nearest to pi, and `sqrt`, `cos`, `sin`, `tan` are
given by their values at `1`, at `90 * PI / 180` and at `70 * PI / 180 / 2`; at any
other argument the table has no entry and answers `NaN`. -/
def mathTable : JSMath Binary64 where
  sqrt := fun x => if x = 1 then 1 else nan
  cos := fun x =>
    if x = decimal 15707963267948966 16 then decimal 6123233995736766 32 else nan
  sin := fun x => if x = decimal 15707963267948966 16 then 1 else nan
  tan := fun x =>
    if x = decimal 6108652381980153 16 then decimal 7002075382097097 16 else nan
  PI := decimal 3141592653589793 15

end Binary64

/-- An array slot that was never written reads as `undefined`, which arithmetic turns
into `NaN`. -/
instance : JSUndefined Binary64 := ⟨.nan⟩

namespace GLMatrix

variable {α : Type} [JSUndefined α]

/-- Method `empty` (lines 123-131). -/
def prototype.empty [Zero α] (this : GLMatrix α) : GLMatrix α :=
  (List.range this.size).foldl
    (fun this index => { this with elements := jsSet this.elements index 0 }) this

/-- The constructor (lines 10-21), called with `new` and a natural number:
`dimension || 4` replaces `0` by `4`, while `size` is computed from the argument. -/
def new [Zero α] (dimension : Nat) : GLMatrix α :=
  prototype.empty
    { dimension := if dimension = 0 then 4 else dimension
      size := dimension * dimension
      elements := [] }

/-- Method `get` (lines 67-69). -/
def prototype.get (this : GLMatrix α) (row col : Nat) : α :=
  jsGet this.elements (col * this.dimension + row)

/-- Method `set` (lines 70-73). -/
def prototype.set (this : GLMatrix α) (row col : Nat) (value : α) : GLMatrix α :=
  { this with elements := jsSet this.elements (col * this.dimension + row) value }

/-- Static `GLMatrix.identity` (lines 23-34); the loop bound is the argument. -/
def identity [Zero α] [One α] (dimension : Nat) : GLMatrix α :=
  (List.range dimension).foldl (fun mat index => prototype.set mat index index 1)
    (new dimension)

/-- Method `add` (lines 74-89). -/
def prototype.add [Zero α] [Add α] (this right : GLMatrix α) : Except Error (GLMatrix α) :=
  if this.size ≠ right.size then
    .error .differentMatricesSize
  else
    .ok ((List.range this.size).foldl
      (fun result index =>
        { result with
          elements := jsSet result.elements index
            (jsGet this.elements index + jsGet right.elements index) })
      (new this.dimension))

/-- Method `mul` (lines 90-122). -/
def prototype.mul [Zero α] [Add α] [Mul α] (this : GLMatrix α) (right : Operand α) :
    Except Error (GLMatrix α) :=
  let result : GLMatrix α := new this.dimension
  match right with
  | .matrix right =>
    if this.size ≠ right.size then
      .error .differentMatricesSize
    else
      .ok ((List.range this.dimension).foldl
        (fun result rightCol =>
          (List.range this.dimension).foldl
            (fun result row =>
              (List.range this.dimension).foldl
                (fun result col =>
                  prototype.set result row rightCol
                    (prototype.get result row rightCol +
                      prototype.get this row col * prototype.get right col rightCol))
                result)
            result)
        result)
  | .number right =>
    .ok ((List.range this.size).foldl
      (fun result index =>
        { result with elements := jsSet result.elements index (jsGet this.elements index * right) })
      result)
  | .other => .error .invalidParameterType

/-- Method `identity` (lines 132-142). -/
def prototype.identity [Zero α] [One α] (this : GLMatrix α) : GLMatrix α :=
  (List.range this.dimension).foldl (fun this index => prototype.set this index index 1)
    (prototype.empty this)

/-- Method `translate` (lines 143-160). -/
def prototype.translate [Zero α] [One α] [Add α] [Mul α] (this : GLMatrix α)
    (xAxis yAxis zAxis : α) : Outcome α :=
  if this.dimension < 4 then
    ⟨this, some .wrongMatrixDimension⟩
  else
    let transform : GLMatrix α := GLMatrix.identity this.dimension
    let transform := prototype.set transform 0 3 xAxis
    let transform := prototype.set transform 1 3 yAxis
    let transform := prototype.set transform 2 3 zAxis
    match prototype.mul transform (.matrix this) with
    | .error e => ⟨this, some e⟩
    | .ok product => ⟨{ this with elements := product.elements }, none⟩

/-- Method `scale` (lines 161-178). -/
def prototype.scale [Zero α] [One α] [Add α] [Mul α] (this : GLMatrix α)
    (xAxis yAxis zAxis : α) : Outcome α :=
  if this.dimension < 3 then
    ⟨this, some .wrongMatrixDimension⟩
  else
    let transform : GLMatrix α := GLMatrix.identity this.dimension
    let transform := prototype.set transform 0 0 xAxis
    let transform := prototype.set transform 1 1 yAxis
    let transform := prototype.set transform 2 2 zAxis
    match prototype.mul transform (.matrix this) with
    | .error e => ⟨this, some e⟩
    | .ok product => ⟨{ this with elements := product.elements }, none⟩

/-- Function `degreeToRadian` (lines 296-298). -/
def degreeToRadian [Mul α] [Div α] [OfNat α 180] (Math : JSMath α) (angle : α) : α :=
  angle * Math.PI / 180

/-- Method `rotate` (lines 179-219). -/
def prototype.rotate [Zero α] [One α] [Add α] [Sub α] [Mul α] [Div α] [Neg α]
    [OfNat α 180] (Math : JSMath α) (this : GLMatrix α)
    (angle xAxis yAxis zAxis : α) : Outcome α :=
  if this.dimension < 3 then
    ⟨this, some .wrongMatrixDimension⟩
  else
    let magnitude := Math.sqrt (xAxis * xAxis + yAxis * yAxis + zAxis * zAxis)
    let xAxis := xAxis / magnitude
    let yAxis := yAxis / magnitude
    let zAxis := zAxis / magnitude
    let angle := degreeToRadian Math angle
    let cosine := Math.cos angle
    let sine := Math.sin angle
    let axis : GLMatrix α := new this.dimension
    let axis := prototype.set axis 0 1 (-zAxis)
    let axis := prototype.set axis 0 2 yAxis
    let axis := prototype.set axis 1 2 (-xAxis)
    let axis := prototype.set axis 1 0 zAxis
    let axis := prototype.set axis 2 0 (-yAxis)
    let axis := prototype.set axis 2 1 xAxis
    let chain : Except Error (GLMatrix α) := do
      let scaledAxis ← prototype.mul axis (.number sine)
      let firstSum ← prototype.add (GLMatrix.identity this.dimension) scaledAxis
      let axisSquared ← prototype.mul axis (.matrix axis)
      let scaledSquare ← prototype.mul axisSquared (.number (1 - cosine))
      let secondSum ← prototype.add firstSum scaledSquare
      prototype.mul secondSum (.matrix this)
    match chain with
    | .error e => ⟨this, some e⟩
    | .ok product => ⟨{ this with elements := product.elements }, none⟩

/-- Method `setOrthographic` (lines 220-245). -/
def prototype.setOrthographic [Zero α] [One α] [Sub α] [Div α] [Neg α] [OfNat α 2]
    (this : GLMatrix α)
    (xLeft xRight yDown yUp zNear zFar : α) : Outcome α :=
  if this.dimension < 4 then
    ⟨this, some .wrongMatrixDimension⟩
  else
    let xHalf := (xRight - xLeft) / 2
    let yHalf := (yUp - yDown) / 2
    let zHalf := (zFar - zNear) / 2
    let this := prototype.identity this
    let this := prototype.set this 0 0 (1 / xHalf)
    let this := prototype.set this 1 1 (1 / yHalf)
    let this := prototype.set this 2 2 (1 / zHalf)
    let this := prototype.set this 0 3 (-xLeft / xHalf - 1)
    let this := prototype.set this 1 3 (-yDown / yHalf - 1)
    let this := prototype.set this 2 3 (-zNear / zHalf - 1)
    ⟨this, none⟩

/-- Method `setFrustum` (lines 246-276). -/
def prototype.setFrustum [Zero α] [One α] [Add α] [Sub α] [Mul α] [Div α] [Neg α]
    [OfNat α 2] (this : GLMatrix α)
    (xLeft xRight yDown yUp zNear zFar : α) : Outcome α :=
  if this.dimension < 4 then
    ⟨this, some .wrongMatrixDimension⟩
  else
    let xHalf := (xRight - xLeft) / 2
    let yHalf := (yUp - yDown) / 2
    let zHalf := (zFar - zNear) / 2
    let this := prototype.empty this
    let this := prototype.set this 0 0 (zNear / xHalf)
    let this := prototype.set this 1 1 (zNear / yHalf)
    let this := prototype.set this 0 2 (-xLeft / xHalf - 1)
    let this := prototype.set this 1 2 (-yDown / yHalf - 1)
    let this := prototype.set this 2 2 (zNear / zHalf + 1)
    let this := prototype.set this 2 3 (-(zNear * zFar / zHalf))
    let this := prototype.set this 3 2 1
    let this := prototype.set this 3 3 0
    ⟨this, none⟩

/-- Method `setPerspective` (lines 277-293). -/
def prototype.setPerspective [Zero α] [One α] [Add α] [Sub α] [Mul α] [Div α] [Neg α]
    [OfNat α 2] [OfNat α 180] (Math : JSMath α) (this : GLMatrix α)
    (angle : α) ( aspectRatio : α) (zNear zFar : α) : Outcome α :=
  let angle := degreeToRadian Math angle
  let yUp := zNear * Math.tan (angle / 2)
  let yDown := -yUp
  let xLeft := yDown * aspectRatio
  let xRight := -xLeft
  prototype.setFrustum this xLeft xRight yDown yUp zNear zFar

/-- What a static factory returns: the matrix, unless the delegated call threw. -/
def Outcome.returned (o : Outcome α) : Except Error (GLMatrix α) :=
  match o.thrown with
  | some e => .error e
  | none => .ok o.receiver

/-- Static `GLMatrix.orthographic` (lines 36-44). -/
def orthographic [Zero α] [One α] [Sub α] [Div α] [Neg α] [OfNat α 2]
    (xLeft xRight yDown yUp zNear zFar : α) :
    Except Error (GLMatrix α) :=
  Outcome.returned
    (prototype.setOrthographic (new 4) xLeft xRight yDown yUp zNear zFar)

/-- Static `GLMatrix.frustum` (lines 46-54). -/
def frustum [Zero α] [One α] [Add α] [Sub α] [Mul α] [Div α] [Neg α] [OfNat α 2]
    (xLeft xRight yDown yUp zNear zFar : α) :
    Except Error (GLMatrix α) :=
  Outcome.returned
    (prototype.setFrustum (new 4) xLeft xRight yDown yUp zNear zFar)

/-- Static `GLMatrix.perspective` (lines 56-64). -/
def perspective [Zero α] [One α] [Add α] [Sub α] [Mul α] [Div α] [Neg α] [OfNat α 2]
    [OfNat α 180] (Math : JSMath α) (angle : α) ( aspectRatio : α) (zNear zFar : α) :
    Except Error (GLMatrix α) :=
  Outcome.returned
    (prototype.setPerspective Math (new 4) angle aspectRatio zNear zFar)

/-- A call of one of the public methods that mutate their receiver. -/
inductive Call (α : Type) where
  | empty
  | identity
  | set (row col : Nat) (value : α)
  | translate (xAxis yAxis zAxis : α)
  | scale (xAxis yAxis zAxis : α)
  | rotate (angle xAxis yAxis zAxis : α)
  | setOrthographic (xLeft xRight yDown yUp zNear zFar : α)
  | setFrustum (xLeft xRight yDown yUp zNear zFar : α)
  | setPerspective (angle : α) ( aspectRatio : α) (zNear zFar : α)

/-- The call addresses an entry inside a matrix of dimension `d` (only `set` takes
indices). -/
def Call.InRange (d : Nat) : Call α → Prop
  | .set row col _ => row < d ∧ col < d
  | _ => True

/-- Performs one call on the receiver `this`. -/
def Call.run [Zero α] [One α] [Add α] [Sub α] [Mul α] [Div α] [Neg α] [OfNat α 2]
    [OfNat α 180] (Math : JSMath α) (this : GLMatrix α) : Call α → Outcome α
  | .empty => ⟨prototype.empty this, none⟩
  | .identity => ⟨prototype.identity this, none⟩
  | .set row col value => ⟨prototype.set this row col value, none⟩
  | .translate xAxis yAxis zAxis => prototype.translate this xAxis yAxis zAxis
  | .scale xAxis yAxis zAxis => prototype.scale this xAxis yAxis zAxis
  | .rotate angle xAxis yAxis zAxis => prototype.rotate Math this angle xAxis yAxis zAxis
  | .setOrthographic xLeft xRight yDown yUp zNear zFar =>
    prototype.setOrthographic this xLeft xRight yDown yUp zNear zFar
  | .setFrustum xLeft xRight yDown yUp zNear zFar =>
    prototype.setFrustum this xLeft xRight yDown yUp zNear zFar
  | .setPerspective angle aspectRatio zNear zFar =>
    prototype.setPerspective Math this angle aspectRatio zNear zFar

/-- Performs the calls one after the other on the same object, stopping at the
first call that throws. -/
def runCalls [Zero α] [One α] [Add α] [Sub α] [Mul α] [Div α] [Neg α] [OfNat α 2]
    [OfNat α 180] (Math : JSMath α) : GLMatrix α → List (Call α) → Outcome α
  | this, [] => ⟨this, none⟩
  | this, call :: calls =>
    match Call.run Math this call with
    | ⟨this, none⟩ => runCalls Math this calls
    | ⟨this, some e⟩ => ⟨this, some e⟩

/-- Shape of a matrix built with a positive dimension `d`: what `new GLMatrix(d)`
creates and the in-range operations keep. -/
def Built (d : Nat) (M : GLMatrix α) : Prop :=
  0 < d ∧ M.dimension = d ∧ M.size = d * d ∧ M.elements.length = d * d

instance (d : Nat) (M : GLMatrix α) : Decidable (Built d M) := by
  unfold Built; infer_instance

/-- The accumulation the innermost loop of `mul` performs for one result entry,
starting from `init`: `init + A(row,0)*B(0,col) + ... + A(row,n-1)*B(n-1,col)`. -/
def dotFrom [Add α] [Mul α] (A B : GLMatrix α) (row rightCol : Nat) (cols : List Nat)
    (init : α) : α :=
  cols.foldl
    (fun acc col => acc + prototype.get A row col * prototype.get B col rightCol) init

/-- Product of a matrix with a column vector given by its components: component
`r` of the result is `M(r,0)*v[0] + M(r,1)*v[1] + ...` over the columns of `M`.
This is the reading of "the matrix applied to a homogeneous point"; the module
itself has no vector type. -/
def transformPoint [Zero α] [Add α] [Mul α] (M : GLMatrix α) (v : List α) : List α :=
  (List.range M.dimension).map (fun r =>
    ((List.range M.dimension).map (fun c => prototype.get M r c * v.getD c 0)).sum)

/-- Entry `(r, c)` of the cross-product matrix `K` of the axis `(x, y, z)` in the
words of the specification: `K[0][1] = -z`, `K[0][2] = y`, `K[1][0] = z`,
`K[1][2] = -x`, `K[2][0] = -y`, `K[2][1] = x`, every other entry `0`. -/
def skewSpec [Zero α] [Neg α] (x y z : α) (r c : Nat) : α :=
  if r = 0 ∧ c = 1 then -z
  else if r = 0 ∧ c = 2 then y
  else if r = 1 ∧ c = 0 then z
  else if r = 1 ∧ c = 2 then -x
  else if r = 2 ∧ c = 0 then -y
  else if r = 2 ∧ c = 1 then x
  else 0

/-- Entry `(r, c)` of `R = Identity + sine * K + (1 - cosine) * K * K` for matrices
of dimension `d`, in the words of the specification (Rodrigues' formula). -/
def rodriguesSpec [Field α] (d : Nat) (sine cosine x y z : α) (r c : Nat) : α :=
  (if r = c then 1 else 0) + sine * skewSpec x y z r c
    + (1 - cosine) * ∑ k in Finset.range d, skewSpec x y z r k * skewSpec x y z k c

/-- Division of a homogeneous point `(x, y, z, w)` by its fourth component. -/
def perspectiveDivide [Div α] (v : List α) : List α :=
  match v with
  | [x, y, z, w] => [x / w, y / w, z / w]
  | _ => []

end GLMatrix

/-! ## Arrays -/

section Arrays

variable {α : Type} [JSUndefined α]

theorem jsSet_length (xs : List α) (i : Nat) (v : α) :
    (jsSet xs i v).length = max xs.length (i + 1) := by
  unfold jsSet
  split
  · rw [List.length_set]; omega
  · simp only [List.length_append, List.length_replicate, List.length_singleton]; omega

theorem jsSet_length_of_lt {xs : List α} {i : Nat} (h : i < xs.length) (v : α) :
    (jsSet xs i v).length = xs.length := by
  rw [jsSet_length]; omega

theorem jsGet_jsSet (xs : List α) (i : Nat) (v : α) (j : Nat) :
    jsGet (jsSet xs i v) j = if j = i then v else jsGet xs j := by
  unfold jsGet jsSet
  simp only [List.getD_eq_getElem?_getD]
  split
  · rename_i h
    by_cases hj : j = i
    · subst hj; simp [h]
    · simp [hj, List.getElem?_set, Ne.symm hj]
  · rename_i h
    by_cases hj : j = i
    · subst hj
      simp [List.getElem?_append_right, Nat.not_lt.mp h]
    · rw [if_neg hj]
      rcases Nat.lt_or_ge j xs.length with h1 | h1
      · rw [List.append_assoc, List.getElem?_append_left h1]
      · rw [List.getElem?_eq_none h1]
        rcases Nat.lt_or_ge j i with h2 | h2
        · rw [List.getElem?_append_left (by simp; omega), List.getElem?_append_right h1,
            List.getElem?_replicate]
          split <;> rfl
        · rw [List.getElem?_eq_none (by simp; omega)]

theorem list_ext_jsGet {xs ys : List α} (hl : xs.length = ys.length)
    (h : ∀ j, j < xs.length → jsGet xs j = jsGet ys j) : xs = ys := by
  apply List.ext_getElem hl
  intro j h1 h2
  have := h j h1
  unfold jsGet at this
  simpa [List.getD_eq_getElem?_getD, List.getElem?_eq_getElem h1,
    List.getElem?_eq_getElem h2] using this

end Arrays

/-! ## Flat loops and entry access -/

namespace GLMatrix

section Access

variable {α : Type} [JSUndefined α]

/-- A loop `for (i = 0; i < n; i += 1) r.elements[i] = g(i)` writes `g` on the
first `n` slots and leaves the fields `dimension` and `size` alone. -/
theorem flatLoop (g : Nat → α) (M : GLMatrix α) (n : Nat) :
    ((List.range n).foldl
        (fun r i => { r with elements := jsSet r.elements i (g i) }) M).dimension
      = M.dimension ∧
    ((List.range n).foldl
        (fun r i => { r with elements := jsSet r.elements i (g i) }) M).size = M.size ∧
    ((List.range n).foldl
        (fun r i => { r with elements := jsSet r.elements i (g i) }) M).elements.length
      = max M.elements.length n ∧
    ∀ j, jsGet ((List.range n).foldl
        (fun r i => { r with elements := jsSet r.elements i (g i) }) M).elements j
      = if j < n then g j else jsGet M.elements j := by
  induction n with
  | zero => simp
  | succ n ih =>
    obtain ⟨h1, h2, h3, h4⟩ := ih
    rw [List.range_succ, List.foldl_append]
    simp only [List.foldl_cons, List.foldl_nil]
    refine ⟨h1, h2, ?_, ?_⟩
    · rw [jsSet_length, h3]; omega
    · intro j
      rw [jsGet_jsSet, h4]
      by_cases hj : j = n
      · subst hj; simp
      · rw [if_neg hj]
        by_cases hlt : j < n
        · rw [if_pos hlt, if_pos (by omega)]
        · rw [if_neg hlt, if_neg (by omega)]

theorem empty_dimension [Zero α] (M : GLMatrix α) :
    (prototype.empty M).dimension = M.dimension :=
  (flatLoop (fun _ => (0 : α)) M M.size).1

theorem empty_size [Zero α] (M : GLMatrix α) : (prototype.empty M).size = M.size :=
  (flatLoop (fun _ => (0 : α)) M M.size).2.1

theorem empty_length [Zero α] (M : GLMatrix α) :
    (prototype.empty M).elements.length = max M.elements.length M.size :=
  (flatLoop (fun _ => (0 : α)) M M.size).2.2.1

theorem empty_jsGet [Zero α] (M : GLMatrix α) (j : Nat) :
    jsGet (prototype.empty M).elements j = if j < M.size then 0 else jsGet M.elements j :=
  (flatLoop (fun _ => (0 : α)) M M.size).2.2.2 j

theorem idx_lt {d r c : Nat} (hr : r < d) (hc : c < d) : c * d + r < d * d := by
  have : (c + 1) * d ≤ d * d := Nat.mul_le_mul_right d hc
  rw [Nat.add_mul, Nat.one_mul] at this
  omega

theorem idx_inj {d r c r' c' : Nat} (hr : r < d) (hr' : r' < d) :
    c' * d + r' = c * d + r ↔ r' = r ∧ c' = c := by
  constructor
  · intro h
    have h1 : (c' * d + r') % d = (c * d + r) % d := by rw [h]
    have h2 : (c' * d + r') / d = (c * d + r) / d := by rw [h]
    have hd : 0 < d := by omega
    rw [Nat.add_comm, Nat.add_mul_mod_self_right, Nat.mod_eq_of_lt hr',
      Nat.add_comm, Nat.add_mul_mod_self_right, Nat.mod_eq_of_lt hr] at h1
    rw [Nat.add_comm, Nat.add_mul_div_right _ _ hd, Nat.div_eq_of_lt hr', Nat.zero_add,
      Nat.add_comm, Nat.add_mul_div_right _ _ hd, Nat.div_eq_of_lt hr, Nat.zero_add] at h2
    exact ⟨h1, h2⟩
  · rintro ⟨rfl, rfl⟩; rfl

theorem set_dimension (M : GLMatrix α) (r c : Nat) (v : α) :
    (prototype.set M r c v).dimension = M.dimension := rfl

theorem set_size (M : GLMatrix α) (r c : Nat) (v : α) :
    (prototype.set M r c v).size = M.size := rfl

theorem get_set {d : Nat} {M : GLMatrix α} (hd : M.dimension = d) {r r' : Nat}
    (hr : r < d) (hr' : r' < d) (c c' : Nat) (v : α) :
    prototype.get (prototype.set M r c v) r' c'
      = if r' = r ∧ c' = c then v else prototype.get M r' c' := by
  unfold prototype.get prototype.set
  simp only [hd]
  rw [jsGet_jsSet]
  by_cases h : r' = r ∧ c' = c
  · rw [if_pos h, if_pos ((idx_inj hr hr').mpr h)]
  · rw [if_neg h, if_neg (fun e => h ((idx_inj hr hr').mp e))]

theorem built_set {d : Nat} {M : GLMatrix α} (h : Built d M) {r c : Nat}
    (hr : r < d) (hc : c < d) (v : α) : Built d (prototype.set M r c v) := by
  obtain ⟨h0, h1, h2, h3⟩ := h
  refine ⟨h0, h1, h2, ?_⟩
  show (jsSet M.elements (c * M.dimension + r) v).length = d * d
  rw [jsSet_length_of_lt (by rw [h1, h3]; exact idx_lt hr hc), h3]

theorem built_ext {d : Nat} {M N : GLMatrix α} (hM : Built d M) (hN : Built d N)
    (h : ∀ r c, r < d → c < d → prototype.get M r c = prototype.get N r c) : M = N := by
  obtain ⟨h0, h1, h2, h3⟩ := hM
  obtain ⟨_, k1, k2, k3⟩ := hN
  have he : M.elements = N.elements := by
    apply list_ext_jsGet (by rw [h3, k3])
    intro j hj
    rw [h3] at hj
    have hdiv : j / d < d := Nat.div_lt_of_lt_mul hj
    have hmod : j % d < d := Nat.mod_lt _ h0
    have := h (j % d) (j / d) hmod hdiv
    unfold prototype.get at this
    rw [h1, k1, Nat.mul_comm, Nat.div_add_mod] at this
    exact this
  cases M; cases N
  simp only [GLMatrix.mk.injEq]
  exact ⟨by simpa using h1.trans k1.symm, by simpa using h2.trans k2.symm, he⟩

end Access

/-! ## The constructor and matrix multiplication -/

section Product

variable {α : Type} [JSUndefined α]

theorem new_dimension [Zero α] {d : Nat} (hd : 0 < d) :
    (new d : GLMatrix α).dimension = d := by
  unfold new
  rw [empty_dimension]
  simp only
  rw [if_neg (by omega)]

theorem new_size [Zero α] (d : Nat) : (new d : GLMatrix α).size = d * d := by
  unfold new
  rw [empty_size]

theorem new_length [Zero α] (d : Nat) : (new d : GLMatrix α).elements.length = d * d := by
  unfold new
  rw [empty_length]
  simp

theorem new_jsGet [Zero α] {d j : Nat} (hj : j < d * d) :
    jsGet (new d : GLMatrix α).elements j = 0 := by
  unfold new
  rw [empty_jsGet]
  simp only
  rw [if_pos hj]

theorem built_new [Zero α] {d : Nat} (hd : 0 < d) : Built d (new d : GLMatrix α) :=
  ⟨hd, new_dimension hd, new_size d, new_length d⟩

theorem get_new [Zero α] {d r c : Nat} (hr : r < d) (hc : c < d) :
    prototype.get (new d : GLMatrix α) r c = 0 := by
  unfold prototype.get
  rw [new_dimension (by omega)]
  exact new_jsGet (idx_lt hr hc)

/-- The innermost loop of `mul`: it accumulates into the entry `(row, rightCol)` and
touches nothing else. -/
theorem mulInner [Add α] [Mul α] (A B : GLMatrix α) {d row rightCol : Nat}
    (hrow : row < d) (hcol : rightCol < d) (cols : List Nat) :
    ∀ result : GLMatrix α, Built d result →
      Built d (cols.foldl
          (fun result col =>
            prototype.set result row rightCol
              (prototype.get result row rightCol +
                prototype.get A row col * prototype.get B col rightCol)) result) ∧
      ∀ r c, r < d → c < d →
        prototype.get (cols.foldl
          (fun result col =>
            prototype.set result row rightCol
              (prototype.get result row rightCol +
                prototype.get A row col * prototype.get B col rightCol)) result) r c
          = if r = row ∧ c = rightCol then
              dotFrom A B row rightCol cols (prototype.get result row rightCol)
            else prototype.get result r c := by
  induction cols with
  | nil =>
    intro result hres
    refine ⟨hres, ?_⟩
    intro r c _ _
    simp only [List.foldl_nil, dotFrom]
    split
    · rename_i h; rw [h.1, h.2]
    · rfl
  | cons col cols ih =>
    intro result hres
    simp only [List.foldl_cons]
    obtain ⟨hb, hg⟩ := ih _ (built_set hres hrow hcol
      (prototype.get result row rightCol +
        prototype.get A row col * prototype.get B col rightCol))
    refine ⟨hb, ?_⟩
    intro r c hr hc
    rw [hg r c hr hc, get_set hres.2.1 hrow hrow, get_set hres.2.1 hrow hr]
    simp only [and_self, if_true, dotFrom, List.foldl_cons]
    by_cases h : r = row ∧ c = rightCol
    · simp only [if_pos h]
    · simp only [if_neg h]

/-- The loop over the rows of one result column. -/
theorem mulMiddle [Add α] [Mul α] (A B : GLMatrix α) {d rightCol : Nat}
    (hcol : rightCol < d) (cols : List Nat) (result : GLMatrix α) (hres : Built d result)
    (m : Nat) (hm : m ≤ d) :
    Built d ((List.range m).foldl
        (fun result row =>
          cols.foldl
            (fun result col =>
              prototype.set result row rightCol
                (prototype.get result row rightCol +
                  prototype.get A row col * prototype.get B col rightCol)) result)
        result) ∧
    ∀ r c, r < d → c < d →
      prototype.get ((List.range m).foldl
        (fun result row =>
          cols.foldl
            (fun result col =>
              prototype.set result row rightCol
                (prototype.get result row rightCol +
                  prototype.get A row col * prototype.get B col rightCol)) result)
        result) r c
        = if r < m ∧ c = rightCol then
            dotFrom A B r rightCol cols (prototype.get result r rightCol)
          else prototype.get result r c := by
  induction m with
  | zero =>
    refine ⟨hres, ?_⟩
    intro r c _ _
    simp
  | succ m ih =>
    obtain ⟨hb, hg⟩ := ih (by omega)
    rw [List.range_succ, List.foldl_append]
    simp only [List.foldl_cons, List.foldl_nil]
    have hm' : m < d := by omega
    obtain ⟨hb', hg'⟩ := mulInner A B hm' hcol cols _ hb
    refine ⟨hb', ?_⟩
    intro r c hr hc
    rw [hg' r c hr hc, hg r c hr hc, hg m rightCol hm' hcol]
    by_cases h1 : r = m ∧ c = rightCol
    · obtain ⟨rfl, rfl⟩ := h1
      simp
    · rw [if_neg h1]
      by_cases h2 : r < m ∧ c = rightCol
      · rw [if_pos h2, if_pos ⟨by omega, h2.2⟩]
      · rw [if_neg h2, if_neg (fun h => by
          rcases Nat.lt_succ_iff_lt_or_eq.mp h.1 with h3 | h3
          · exact h2 ⟨h3, h.2⟩
          · exact h1 ⟨h3, h.2⟩)]

/-- The loop over the result columns. -/
theorem mulOuter [Add α] [Mul α] (A B : GLMatrix α) {d : Nat}
    (cols : List Nat) (result : GLMatrix α) (hres : Built d result)
    (m : Nat) (hm : m ≤ d) :
    Built d ((List.range m).foldl
        (fun result rightCol =>
          (List.range d).foldl
            (fun result row =>
              cols.foldl
                (fun result col =>
                  prototype.set result row rightCol
                    (prototype.get result row rightCol +
                      prototype.get A row col * prototype.get B col rightCol)) result)
            result)
        result) ∧
    ∀ r c, r < d → c < d →
      prototype.get ((List.range m).foldl
        (fun result rightCol =>
          (List.range d).foldl
            (fun result row =>
              cols.foldl
                (fun result col =>
                  prototype.set result row rightCol
                    (prototype.get result row rightCol +
                      prototype.get A row col * prototype.get B col rightCol)) result)
            result)
        result) r c
        = if c < m then dotFrom A B r c cols (prototype.get result r c)
          else prototype.get result r c := by
  induction m with
  | zero =>
    refine ⟨hres, ?_⟩
    intro r c _ _
    simp
  | succ m ih =>
    obtain ⟨hb, hg⟩ := ih (by omega)
    rw [List.range_succ, List.foldl_append]
    simp only [List.foldl_cons, List.foldl_nil]
    have hm' : m < d := by omega
    obtain ⟨hb', hg'⟩ := mulMiddle A B hm' cols _ hb d (Nat.le_refl d)
    refine ⟨hb', ?_⟩
    intro r c hr hc
    rw [hg' r c hr hc, hg r c hr hc, hg r m hr hm']
    by_cases h1 : c = m
    · subst h1
      simp [hr]
    · rw [if_neg (fun h => h1 h.2)]
      by_cases h2 : c < m
      · rw [if_pos h2, if_pos (by omega)]
      · rw [if_neg h2, if_neg (by omega)]

/-- The matrix branch of `mul` on a receiver built with dimension `d` and an
operand of the same size: it returns a matrix of the same shape whose entry
`(r, c)` is the accumulation of the products along row `r` and column `c`. -/
theorem mul_matrix [Zero α] [Add α] [Mul α] {d : Nat} {A B : GLMatrix α}
    (hA : Built d A) (hsize : A.size = B.size) :
    ∃ P, prototype.mul A (.matrix B) = .ok P ∧ Built d P ∧
      ∀ r c, r < d → c < d →
        prototype.get P r c = dotFrom A B r c (List.range d) 0 := by
  unfold prototype.mul
  simp only [hsize, ne_eq, not_true_eq_false, if_false, hA.2.1]
  obtain ⟨hb, hg⟩ := mulOuter A B (List.range d) (new d) (built_new hA.1) d (Nat.le_refl d)
  refine ⟨_, rfl, hb, ?_⟩
  intro r c hr hc
  rw [hg r c hr hc, if_pos hc, get_new hr hc]

end Product

/-! ## Identity, addition, scalar multiples -/

section Algebra

variable {α : Type} [JSUndefined α]

theorem built_empty [Zero α] {d : Nat} {M : GLMatrix α} (hM : Built d M) :
    Built d (prototype.empty M) := by
  obtain ⟨h0, h1, h2, h3⟩ := hM
  refine ⟨h0, by rw [empty_dimension, h1], by rw [empty_size, h2], ?_⟩
  rw [empty_length, h2, h3, Nat.max_self]

theorem get_empty [Zero α] {d : Nat} {M : GLMatrix α} (hM : Built d M) {r c : Nat}
    (hr : r < d) (hc : c < d) : prototype.get (prototype.empty M) r c = 0 := by
  unfold prototype.get
  rw [empty_jsGet, empty_dimension, hM.2.1, hM.2.2.1, if_pos (idx_lt hr hc)]

/-- The loop `for (index = 0; index < m; index += 1) mat.set(index, index, 1)`. -/
theorem diagLoop [One α] {d : Nat} (M : GLMatrix α) (hM : Built d M) (m : Nat)
    (hm : m ≤ d) :
    Built d ((List.range m).foldl (fun mat index => prototype.set mat index index 1) M) ∧
    ∀ r c, r < d → c < d →
      prototype.get
          ((List.range m).foldl (fun mat index => prototype.set mat index index 1) M) r c
        = if r = c ∧ r < m then 1 else prototype.get M r c := by
  induction m with
  | zero =>
    refine ⟨hM, ?_⟩
    intro r c _ _
    simp
  | succ m ih =>
    obtain ⟨hb, hg⟩ := ih (by omega)
    rw [List.range_succ, List.foldl_append]
    simp only [List.foldl_cons, List.foldl_nil]
    have hm' : m < d := by omega
    refine ⟨built_set hb hm' hm' 1, ?_⟩
    intro r c hr hc
    rw [get_set hb.2.1 hm' hr, hg r c hr hc]
    by_cases h1 : r = m ∧ c = m
    · obtain ⟨rfl, rfl⟩ := h1
      simp
    · rw [if_neg h1]
      by_cases h2 : r = c ∧ r < m
      · rw [if_pos h2, if_pos ⟨h2.1, by omega⟩]
      · rw [if_neg h2, if_neg (fun h => by
          rcases Nat.lt_succ_iff_lt_or_eq.mp h.2 with h3 | h3
          · exact h2 ⟨h.1, h3⟩
          · exact h1 ⟨h3, by omega⟩)]

theorem built_identity [Zero α] [One α] {d : Nat} (hd : 0 < d) :
    Built d (identity d : GLMatrix α) :=
  (diagLoop (new d) (built_new hd) d (Nat.le_refl d)).1

theorem get_identity [Zero α] [One α] {d r c : Nat} (hr : r < d) (hc : c < d) :
    prototype.get (identity d : GLMatrix α) r c = if r = c then 1 else 0 := by
  unfold identity
  rw [(diagLoop (new d) (built_new (by omega)) d (Nat.le_refl d)).2 r c hr hc,
    get_new hr hc]
  simp [hr]

theorem built_protoIdentity [Zero α] [One α] {d : Nat} {M : GLMatrix α} (hM : Built d M) :
    Built d (prototype.identity M) := by
  unfold prototype.identity
  rw [hM.2.1]
  exact (diagLoop _ (built_empty hM) d (Nat.le_refl d)).1

theorem get_protoIdentity [Zero α] [One α] {d : Nat} {M : GLMatrix α} (hM : Built d M)
    {r c : Nat} (hr : r < d) (hc : c < d) :
    prototype.get (prototype.identity M) r c = if r = c then 1 else 0 := by
  unfold prototype.identity
  rw [hM.2.1, (diagLoop _ (built_empty hM) d (Nat.le_refl d)).2 r c hr hc, get_empty hM hr hc]
  simp [hr]

/-- Method `add` on a receiver built with dimension `d`. -/
theorem add_built [Zero α] [Add α] {d : Nat} {A B : GLMatrix α}
    (hA : Built d A) (hsize : A.size = B.size) :
    ∃ P, prototype.add A B = .ok P ∧ Built d P ∧
      ∀ j, j < d * d → jsGet P.elements j = jsGet A.elements j + jsGet B.elements j := by
  unfold prototype.add
  simp only [hsize, ne_eq, not_true_eq_false, if_false]
  obtain ⟨h1, h2, h3, h4⟩ := flatLoop
    (fun index => jsGet A.elements index + jsGet B.elements index)
    (new A.dimension) B.size
  refine ⟨_, rfl, ⟨hA.1, ?_, ?_, ?_⟩, ?_⟩
  · rw [h1, hA.2.1, new_dimension hA.1]
  · rw [h2, hA.2.1, new_size]
  · rw [h3, hA.2.1, new_length, ← hsize, hA.2.2.1, Nat.max_self]
  · intro j hj
    rw [h4, ← hsize, hA.2.2.1, if_pos hj]

/-- The scalar branch of `mul` on a receiver built with dimension `d`. -/
theorem mul_number [Zero α] [Add α] [Mul α] {d : Nat} {A : GLMatrix α}
    (hA : Built d A) (x : α) :
    ∃ P, prototype.mul A (.number x) = .ok P ∧ Built d P ∧
      ∀ j, j < d * d → jsGet P.elements j = jsGet A.elements j * x := by
  unfold prototype.mul
  simp only
  obtain ⟨h1, h2, h3, h4⟩ := flatLoop
    (fun index => jsGet A.elements index * x) (new A.dimension) A.size
  refine ⟨_, rfl, ⟨hA.1, ?_, ?_, ?_⟩, ?_⟩
  · rw [h1, hA.2.1, new_dimension hA.1]
  · rw [h2, hA.2.1, new_size]
  · rw [h3, hA.2.1, new_length, hA.2.2.1, Nat.max_self]
  · intro j hj
    rw [h4, hA.2.2.1, if_pos hj]

/-- In a semiring the accumulation of `mul` is the usual finite sum. -/
theorem dotFrom_eq_sum [Semiring α] (A B : GLMatrix α) (r c n : Nat) (init : α) :
    dotFrom A B r c (List.range n) init
      = init + ∑ k in Finset.range n, prototype.get A r k * prototype.get B k c := by
  unfold dotFrom
  induction n with
  | zero => simp
  | succ n ih =>
    rw [List.range_succ, List.foldl_append, ih, Finset.sum_range_succ]
    simp [add_assoc]

/-- The matrix branch of `mul` over a semiring: the standard matrix product. -/
theorem mul_matrix_sum [Semiring α] {d : Nat} {A B : GLMatrix α}
    (hA : Built d A) (hsize : A.size = B.size) :
    ∃ P, prototype.mul A (.matrix B) = .ok P ∧ Built d P ∧
      ∀ r c, r < d → c < d →
        prototype.get P r c
          = ∑ k in Finset.range d, prototype.get A r k * prototype.get B k c := by
  obtain ⟨P, h1, h2, h3⟩ := mul_matrix hA hsize
  refine ⟨P, h1, h2, ?_⟩
  intro r c hr hc
  rw [h3 r c hr hc, dotFrom_eq_sum, zero_add]

end Algebra

/-! ## Composition with a transform matrix -/

section Compose

variable {α : Type} [JSUndefined α]

theorem get_withElements {d : Nat} {M P : GLMatrix α} (hM : Built d M) (hP : Built d P)
    (r c : Nat) :
    prototype.get { M with elements := P.elements } r c = prototype.get P r c := by
  unfold prototype.get
  simp only [hM.2.1, hP.2.1]

omit [JSUndefined α] in
theorem built_withElements {d : Nat} {M P : GLMatrix α} (hM : Built d M) (hP : Built d P) :
    Built d { M with elements := P.elements } :=
  ⟨hM.1, hM.2.1, hM.2.2.1, hP.2.2.2⟩

/-- Method `translate` on a matrix built with dimension `d >= 4`: the receiver takes
the elements of `transform.mul(this)`. -/
theorem translate_eq [Zero α] [One α] [Add α] [Mul α] {d : Nat} {M : GLMatrix α}
    (hM : Built d M) (hd : 4 ≤ d) (x y z : α) :
    ∃ P, Built d P ∧
      prototype.mul
        (prototype.set (prototype.set (prototype.set (identity d) 0 3 x) 1 3 y) 2 3 z)
        (.matrix M) = .ok P ∧
      prototype.translate M x y z = ⟨{ M with elements := P.elements }, none⟩ := by
  have hT : Built d
      (prototype.set (prototype.set (prototype.set (identity d : GLMatrix α) 0 3 x) 1 3 y)
        2 3 z) :=
    built_set (built_set (built_set (built_identity hM.1) (by omega) (by omega) x)
      (by omega) (by omega) y) (by omega) (by omega) z
  obtain ⟨P, e, bP, _⟩ := mul_matrix hT (hT.2.2.1.trans hM.2.2.1.symm)
  refine ⟨P, bP, e, ?_⟩
  unfold prototype.translate
  rw [if_neg (by rw [hM.2.1]; omega)]
  simp only [hM.2.1, e]

/-- Method `scale` on a matrix built with dimension `d >= 3`. -/
theorem scale_eq [Zero α] [One α] [Add α] [Mul α] {d : Nat} {M : GLMatrix α}
    (hM : Built d M) (hd : 3 ≤ d) (x y z : α) :
    ∃ P, Built d P ∧
      prototype.mul
        (prototype.set (prototype.set (prototype.set (identity d) 0 0 x) 1 1 y) 2 2 z)
        (.matrix M) = .ok P ∧
      prototype.scale M x y z = ⟨{ M with elements := P.elements }, none⟩ := by
  have hT : Built d
      (prototype.set (prototype.set (prototype.set (identity d : GLMatrix α) 0 0 x) 1 1 y)
        2 2 z) :=
    built_set (built_set (built_set (built_identity hM.1) (by omega) (by omega) x)
      (by omega) (by omega) y) (by omega) (by omega) z
  obtain ⟨P, e, bP, _⟩ := mul_matrix hT (hT.2.2.1.trans hM.2.2.1.symm)
  refine ⟨P, bP, e, ?_⟩
  unfold prototype.scale
  rw [if_neg (by rw [hM.2.1]; omega)]
  simp only [hM.2.1, e]

/-- Method `rotate` on a matrix built with dimension `d >= 3`: every call of the
chain returns, whatever the angle and the axis. -/
theorem rotate_eq [Field α] (Math : JSMath α) {d : Nat} {M : GLMatrix α}
    (hM : Built d M) (hd : 3 ≤ d) (angle x y z : α) :
    ∃ P, Built d P ∧
      prototype.rotate Math M angle x y z = ⟨{ M with elements := P.elements }, none⟩ := by
  unfold prototype.rotate
  rw [if_neg (by rw [hM.2.1]; omega)]
  simp only [hM.2.1]
  generalize hax : prototype.set (prototype.set (prototype.set (prototype.set
    (prototype.set (prototype.set (new d : GLMatrix α) 0 1 _) 0 2 _) 1 2 _) 1 0 _)
    2 0 _) 2 1 _ = axis
  have hAxis : Built d axis := by
    rw [← hax]
    exact built_set (built_set (built_set (built_set (built_set (built_set
      (built_new hM.1) (by omega) (by omega) _) (by omega) (by omega) _)
      (by omega) (by omega) _) (by omega) (by omega) _) (by omega) (by omega) _)
      (by omega) (by omega) _
  have hI : Built d (identity d : GLMatrix α) := built_identity hM.1
  obtain ⟨S1, e1, b1, _⟩ := mul_number hAxis (Math.sin (degreeToRadian Math angle))
  obtain ⟨S2, e2, b2, _⟩ := add_built hI (hI.2.2.1.trans b1.2.2.1.symm)
  obtain ⟨S3, e3, b3, _⟩ := mul_matrix hAxis (rfl : axis.size = axis.size)
  obtain ⟨S4, e4, b4, _⟩ := mul_number b3 (1 - Math.cos (degreeToRadian Math angle))
  obtain ⟨S5, e5, b5, _⟩ := add_built b2 (b2.2.2.1.trans b4.2.2.1.symm)
  obtain ⟨S6, e6, b6, _⟩ := mul_matrix b5 (b5.2.2.1.trans hM.2.2.1.symm)
  refine ⟨S6, b6, ?_⟩
  simp only [e1, e2, e3, e4, e5, e6, bind, Except.bind]

/-- Method `setOrthographic` on a matrix built with dimension `d >= 4`. -/
theorem setOrthographic_ok [Field α] {d : Nat} {M : GLMatrix α} (hM : Built d M)
    (hd : 4 ≤ d) (xLeft xRight yDown yUp zNear zFar : α) :
    (prototype.setOrthographic M xLeft xRight yDown yUp zNear zFar).thrown = none ∧
    Built d (prototype.setOrthographic M xLeft xRight yDown yUp zNear zFar).receiver := by
  unfold prototype.setOrthographic
  rw [if_neg (by rw [hM.2.1]; omega)]
  refine ⟨rfl, ?_⟩
  exact built_set (built_set (built_set (built_set (built_set (built_set
    (built_protoIdentity hM) (by omega) (by omega) _) (by omega) (by omega) _)
    (by omega) (by omega) _) (by omega) (by omega) _) (by omega) (by omega) _)
    (by omega) (by omega) _

/-- Method `setFrustum` on a matrix built with dimension `d >= 4`. -/
theorem setFrustum_ok [Field α] {d : Nat} {M : GLMatrix α} (hM : Built d M)
    (hd : 4 ≤ d) (xLeft xRight yDown yUp zNear zFar : α) :
    (prototype.setFrustum M xLeft xRight yDown yUp zNear zFar).thrown = none ∧
    Built d (prototype.setFrustum M xLeft xRight yDown yUp zNear zFar).receiver := by
  unfold prototype.setFrustum
  rw [if_neg (by rw [hM.2.1]; omega)]
  refine ⟨rfl, ?_⟩
  exact built_set (built_set (built_set (built_set (built_set (built_set (built_set
    (built_set (built_empty hM) (by omega) (by omega) _) (by omega) (by omega) _)
    (by omega) (by omega) _) (by omega) (by omega) _) (by omega) (by omega) _)
    (by omega) (by omega) _) (by omega) (by omega) _) (by omega) (by omega) _

theorem translate_fail [Zero α] [One α] [Add α] [Mul α] (M : GLMatrix α)
    (h : M.dimension < 4) (x y z : α) :
    prototype.translate M x y z = ⟨M, some .wrongMatrixDimension⟩ := by
  unfold prototype.translate
  rw [if_pos h]

theorem scale_fail [Zero α] [One α] [Add α] [Mul α] (M : GLMatrix α)
    (h : M.dimension < 3) (x y z : α) :
    prototype.scale M x y z = ⟨M, some .wrongMatrixDimension⟩ := by
  unfold prototype.scale
  rw [if_pos h]

theorem rotate_fail [Field α] (Math : JSMath α) (M : GLMatrix α)
    (h : M.dimension < 3) (angle x y z : α) :
    prototype.rotate Math M angle x y z = ⟨M, some .wrongMatrixDimension⟩ := by
  unfold prototype.rotate
  rw [if_pos h]

theorem setOrthographic_fail [Field α] (M : GLMatrix α) (h : M.dimension < 4)
    (xLeft xRight yDown yUp zNear zFar : α) :
    prototype.setOrthographic M xLeft xRight yDown yUp zNear zFar
      = ⟨M, some .wrongMatrixDimension⟩ := by
  unfold prototype.setOrthographic
  rw [if_pos h]

theorem setFrustum_fail [Field α] (M : GLMatrix α) (h : M.dimension < 4)
    (xLeft xRight yDown yUp zNear zFar : α) :
    prototype.setFrustum M xLeft xRight yDown yUp zNear zFar
      = ⟨M, some .wrongMatrixDimension⟩ := by
  unfold prototype.setFrustum
  rw [if_pos h]

omit [JSUndefined α] in
/-- An outcome that throws "Wrong matrix dimension" below the minimum `k` and does
not throw from `k` on throws exactly below `k`. -/
theorem thrown_iff (out : Outcome α) {d k : Nat}
    (h1 : d < k → out.thrown = some .wrongMatrixDimension)
    (h2 : k ≤ d → out.thrown = none) :
    (out.thrown = some .wrongMatrixDimension ↔ d < k) ∧ (out.thrown = none ↔ k ≤ d) := by
  rcases Nat.lt_or_ge d k with h | h
  · rw [h1 h]
    exact ⟨⟨fun _ => h, fun _ => rfl⟩, ⟨fun e => (by cases e), fun e => (by omega)⟩⟩
  · rw [h2 h]
    exact ⟨⟨fun e => (by cases e), fun e => (by omega)⟩, ⟨fun _ => h, fun _ => rfl⟩⟩

omit [JSUndefined α] in
/-- A method that throws "Wrong matrix dimension" without touching its receiver
below the minimum `k`, and returns from `k` on: it fails exactly below `k`, and a
failure leaves the receiver as it was. -/
theorem fails_exactly_below {out : Outcome α} {M : GLMatrix α} {d k : Nat}
    (h1 : d < k → out = ⟨M, some .wrongMatrixDimension⟩)
    (h2 : k ≤ d → out.thrown = none) :
    (out.thrown = some .wrongMatrixDimension ↔ d < k) ∧ (out.thrown = none ↔ k ≤ d) ∧
    (out.thrown ≠ none → out.receiver = M) := by
  obtain ⟨a, b⟩ := thrown_iff out (fun h => by rw [h1 h]) h2
  refine ⟨a, b, ?_⟩
  intro hne
  rcases Nat.lt_or_ge d k with h | h
  · rw [h1 h]
  · exact absurd (h2 h) hne

/-- Each call keeps the shape of the receiver, whether it throws or not. -/
theorem run_built [Field α] (Math : JSMath α) {d : Nat} {M : GLMatrix α} (hM : Built d M)
    (call : Call α) (hcall : call.InRange d) : Built d (call.run Math M).receiver := by
  cases call with
  | empty => exact built_empty hM
  | identity => exact built_protoIdentity hM
  | set row col value => exact built_set hM hcall.1 hcall.2 value
  | translate x y z =>
    show Built d (prototype.translate M x y z).receiver
    rcases Nat.lt_or_ge d 4 with h | h
    · rw [translate_fail M (by rw [hM.2.1]; exact h)]; exact hM
    · obtain ⟨P, bP, _, e⟩ := translate_eq hM h x y z
      rw [e]; exact built_withElements hM bP
  | scale x y z =>
    show Built d (prototype.scale M x y z).receiver
    rcases Nat.lt_or_ge d 3 with h | h
    · rw [scale_fail M (by rw [hM.2.1]; exact h)]; exact hM
    · obtain ⟨P, bP, _, e⟩ := scale_eq hM h x y z
      rw [e]; exact built_withElements hM bP
  | rotate angle x y z =>
    show Built d (prototype.rotate Math M angle x y z).receiver
    rcases Nat.lt_or_ge d 3 with h | h
    · rw [rotate_fail Math M (by rw [hM.2.1]; exact h)]; exact hM
    · obtain ⟨P, bP, e⟩ := rotate_eq Math hM h angle x y z
      rw [e]; exact built_withElements hM bP
  | setOrthographic xLeft xRight yDown yUp zNear zFar =>
    show Built d (prototype.setOrthographic M xLeft xRight yDown yUp zNear zFar).receiver
    rcases Nat.lt_or_ge d 4 with h | h
    · rw [setOrthographic_fail M (by rw [hM.2.1]; exact h)]; exact hM
    · exact (setOrthographic_ok hM h _ _ _ _ _ _).2
  | setFrustum xLeft xRight yDown yUp zNear zFar =>
    show Built d (prototype.setFrustum M xLeft xRight yDown yUp zNear zFar).receiver
    rcases Nat.lt_or_ge d 4 with h | h
    · rw [setFrustum_fail M (by rw [hM.2.1]; exact h)]; exact hM
    · exact (setFrustum_ok hM h _ _ _ _ _ _).2
  | setPerspective angle aspect zNear zFar =>
    show Built d (prototype.setPerspective Math M angle aspect zNear zFar).receiver
    unfold prototype.setPerspective
    simp only
    rcases Nat.lt_or_ge d 4 with h | h
    · rw [setFrustum_fail M (by rw [hM.2.1]; exact h)]; exact hM
    · exact (setFrustum_ok hM h _ _ _ _ _ _).2

/-- A sequence of calls keeps the shape of the receiver. -/
theorem runCalls_built [Field α] (Math : JSMath α) {d : Nat} (calls : List (Call α)) :
    ∀ M : GLMatrix α, Built d M → (∀ call ∈ calls, call.InRange d) →
      Built d (runCalls Math M calls).receiver := by
  induction calls with
  | nil => intro M hM _; exact hM
  | cons call calls ih =>
    intro M hM hin
    have hstep := run_built Math hM call (hin call (List.mem_cons_self _ _))
    unfold runCalls
    split
    · rename_i this heq
      rw [heq] at hstep
      exact ih this hstep (fun c hc => hin c (List.mem_cons_of_mem _ hc))
    · rename_i this e heq
      rw [heq] at hstep
      exact hstep

omit [JSUndefined α] in
theorem returned_ok {out : Outcome α} (h : out.thrown = none) :
    Outcome.returned out = .ok out.receiver := by
  unfold Outcome.returned
  rw [h]

end Compose

/-! ## Entries after `translate` and `scale` -/

section Entries

variable {α : Type} [JSUndefined α]

omit [JSUndefined α] in
/-- A row with a single entry `a` at column `i` picks `a * g i` out of the sum. -/
theorem sum_row_one [Semiring α] {d i : Nat} (hi : i < d) (a : α) (t g : Nat → α)
    (ht : ∀ k, k < d → t k = if k = i then a else 0) :
    ∑ k in Finset.range d, t k * g k = a * g i := by
  have h : ∀ k ∈ Finset.range d, t k * g k = if k = i then a * g k else 0 := by
    intro k hk
    rw [ht k (Finset.mem_range.mp hk)]
    split <;> simp
  rw [Finset.sum_congr rfl h, Finset.sum_ite_eq', if_pos (Finset.mem_range.mpr hi)]

omit [JSUndefined α] in
/-- A row with entries `a` at column `i` and `b` at column `j`. -/
theorem sum_row_two [Semiring α] {d i j : Nat} (hi : i < d) (hj : j < d) (hij : i ≠ j)
    (a b : α) (t g : Nat → α)
    (ht : ∀ k, k < d → t k = if k = i then a else if k = j then b else 0) :
    ∑ k in Finset.range d, t k * g k = a * g i + b * g j := by
  have h : ∀ k ∈ Finset.range d,
      t k * g k = (if k = i then a * g k else 0) + (if k = j then b * g k else 0) := by
    intro k hk
    rw [ht k (Finset.mem_range.mp hk)]
    by_cases h1 : k = i
    · have h2 : k ≠ j := fun e => hij (h1.symm.trans e)
      simp [h1, h2, hij]
    · by_cases h2 : k = j
      · subst h2
        simp [Ne.symm hij]
      · simp [h1, h2]
  rw [Finset.sum_congr rfl h, Finset.sum_add_distrib, Finset.sum_ite_eq',
    Finset.sum_ite_eq', if_pos (Finset.mem_range.mpr hi), if_pos (Finset.mem_range.mpr hj)]

/-- Entries of the transform matrix that `translate` builds. -/
theorem get_translateTransform [Zero α] [One α] {d : Nat} (hd : 4 ≤ d) (x y z : α)
    {r k : Nat} (hr : r < d) (hk : k < d) :
    prototype.get
        (prototype.set (prototype.set (prototype.set (identity d) 0 3 x) 1 3 y) 2 3 z) r k
      = if r = 2 ∧ k = 3 then z else if r = 1 ∧ k = 3 then y
        else if r = 0 ∧ k = 3 then x else if r = k then 1 else 0 := by
  have h0 : Built d (identity d : GLMatrix α) := built_identity (by omega)
  have h1 := built_set h0 (show 0 < d by omega) (show 3 < d by omega) x
  have h2 := built_set h1 (show 1 < d by omega) (show 3 < d by omega) y
  rw [get_set h2.2.1 (by omega) hr, get_set h1.2.1 (by omega) hr,
    get_set h0.2.1 (by omega) hr, get_identity hr hk]

/-- Entries of the transform matrix that `scale` builds. -/
theorem get_scaleTransform [Zero α] [One α] {d : Nat} (hd : 3 ≤ d) (x y z : α)
    {r k : Nat} (hr : r < d) (hk : k < d) :
    prototype.get
        (prototype.set (prototype.set (prototype.set (identity d) 0 0 x) 1 1 y) 2 2 z) r k
      = if r = 2 ∧ k = 2 then z else if r = 1 ∧ k = 1 then y
        else if r = 0 ∧ k = 0 then x else if r = k then 1 else 0 := by
  have h0 : Built d (identity d : GLMatrix α) := built_identity (by omega)
  have h1 := built_set h0 (show 0 < d by omega) (show 0 < d by omega) x
  have h2 := built_set h1 (show 1 < d by omega) (show 1 < d by omega) y
  rw [get_set h2.2.1 (by omega) hr, get_set h1.2.1 (by omega) hr,
    get_set h0.2.1 (by omega) hr, get_identity hr hk]

/-- Entries of the receiver after `translate`. -/
theorem translate_get [Semiring α] {d : Nat} {A : GLMatrix α} (hA : Built d A)
    (hd : 4 ≤ d) (tx ty tz : α) {c : Nat} (hc : c < d) :
    prototype.get (prototype.translate A tx ty tz).receiver 0 c
      = prototype.get A 0 c + tx * prototype.get A 3 c ∧
    prototype.get (prototype.translate A tx ty tz).receiver 1 c
      = prototype.get A 1 c + ty * prototype.get A 3 c ∧
    prototype.get (prototype.translate A tx ty tz).receiver 2 c
      = prototype.get A 2 c + tz * prototype.get A 3 c ∧
    ∀ r, 3 ≤ r → r < d →
      prototype.get (prototype.translate A tx ty tz).receiver r c = prototype.get A r c := by
  obtain ⟨P, bP, e, hT⟩ := translate_eq hA hd tx ty tz
  have hTb : Built d
      (prototype.set (prototype.set (prototype.set (identity d : GLMatrix α) 0 3 tx) 1 3 ty)
        2 3 tz) :=
    built_set (built_set (built_set (built_identity hA.1) (by omega) (by omega) tx)
      (by omega) (by omega) ty) (by omega) (by omega) tz
  obtain ⟨Q, eQ, _, gQ⟩ := mul_matrix_sum hTb (hTb.2.2.1.trans hA.2.2.1.symm)
  rw [e] at eQ
  cases eQ
  rw [hT]
  simp only [get_withElements hA bP]
  refine ⟨?_, ?_, ?_, ?_⟩
  · rw [gQ 0 c (by omega) hc,
      sum_row_two (show 0 < d by omega) (show 3 < d by omega) (by decide) 1 tx _ _
        (fun k hk => by
          rw [get_translateTransform hd tx ty tz (show 0 < d by omega) hk]
          by_cases h0 : k = 0
          · subst h0; simp
          · by_cases h3 : k = 3
            · subst h3; simp
            · simp [h0, h3, Ne.symm h0]),
      one_mul]
  · rw [gQ 1 c (by omega) hc,
      sum_row_two (show 1 < d by omega) (show 3 < d by omega) (by decide) 1 ty _ _
        (fun k hk => by
          rw [get_translateTransform hd tx ty tz (show 1 < d by omega) hk]
          by_cases h0 : k = 1
          · subst h0; simp
          · by_cases h3 : k = 3
            · subst h3; simp
            · simp [h0, h3, Ne.symm h0]),
      one_mul]
  · rw [gQ 2 c (by omega) hc,
      sum_row_two (show 2 < d by omega) (show 3 < d by omega) (by decide) 1 tz _ _
        (fun k hk => by
          rw [get_translateTransform hd tx ty tz (show 2 < d by omega) hk]
          by_cases h0 : k = 2
          · subst h0; simp
          · by_cases h3 : k = 3
            · subst h3; simp
            · simp [h0, h3, Ne.symm h0]),
      one_mul]
  · intro r h3 hr
    rw [gQ r c hr hc,
      sum_row_one hr 1 _ _
        (fun k hk => by
          rw [get_translateTransform hd tx ty tz hr hk,
            if_neg (fun h => by omega), if_neg (fun h => by omega),
            if_neg (fun h => by omega)]
          by_cases h0 : k = r
          · rw [if_pos h0, if_pos h0.symm]
          · rw [if_neg h0, if_neg (Ne.symm h0)]),
      one_mul]

/-- Entries of the receiver after `scale`. -/
theorem scale_get [Semiring α] {d : Nat} {A : GLMatrix α} (hA : Built d A)
    (hd : 3 ≤ d) (sx sy sz : α) {c : Nat} (hc : c < d) :
    prototype.get (prototype.scale A sx sy sz).receiver 0 c = sx * prototype.get A 0 c ∧
    prototype.get (prototype.scale A sx sy sz).receiver 1 c = sy * prototype.get A 1 c ∧
    prototype.get (prototype.scale A sx sy sz).receiver 2 c = sz * prototype.get A 2 c ∧
    ∀ r, 3 ≤ r → r < d →
      prototype.get (prototype.scale A sx sy sz).receiver r c = prototype.get A r c := by
  obtain ⟨P, bP, e, hT⟩ := scale_eq hA hd sx sy sz
  have hTb : Built d
      (prototype.set (prototype.set (prototype.set (identity d : GLMatrix α) 0 0 sx) 1 1 sy)
        2 2 sz) :=
    built_set (built_set (built_set (built_identity hA.1) (by omega) (by omega) sx)
      (by omega) (by omega) sy) (by omega) (by omega) sz
  obtain ⟨Q, eQ, _, gQ⟩ := mul_matrix_sum hTb (hTb.2.2.1.trans hA.2.2.1.symm)
  rw [e] at eQ
  cases eQ
  rw [hT]
  simp only [get_withElements hA bP]
  refine ⟨?_, ?_, ?_, ?_⟩
  · rw [gQ 0 c (by omega) hc,
      sum_row_one (show 0 < d by omega) sx _ _
        (fun k hk => by
          rw [get_scaleTransform hd sx sy sz (show 0 < d by omega) hk]
          by_cases h0 : k = 0
          · subst h0; simp
          · simp [h0, Ne.symm h0])]
  · rw [gQ 1 c (by omega) hc,
      sum_row_one (show 1 < d by omega) sy _ _
        (fun k hk => by
          rw [get_scaleTransform hd sx sy sz (show 1 < d by omega) hk]
          by_cases h0 : k = 1
          · subst h0; simp
          · simp [h0, Ne.symm h0])]
  · rw [gQ 2 c (by omega) hc,
      sum_row_one (show 2 < d by omega) sz _ _
        (fun k hk => by
          rw [get_scaleTransform hd sx sy sz (show 2 < d by omega) hk]
          by_cases h0 : k = 2
          · subst h0; simp
          · simp [h0, Ne.symm h0])]
  · intro r h3 hr
    rw [gQ r c hr hc,
      sum_row_one hr 1 _ _
        (fun k hk => by
          rw [get_scaleTransform hd sx sy sz hr hk,
            if_neg (fun h => by omega), if_neg (fun h => by omega),
            if_neg (fun h => by omega)]
          by_cases h0 : k = r
          · rw [if_pos h0, if_pos h0.symm]
          · rw [if_neg h0, if_neg (Ne.symm h0)]),
      one_mul]

omit [JSUndefined α] in
/-- Replacing the elements of a matrix by those of a matrix of the same shape gives
that matrix. -/
theorem withElements_eq {d : Nat} {M P : GLMatrix α} (hM : Built d M) (hP : Built d P) :
    ({ M with elements := P.elements } : GLMatrix α) = P := by
  obtain ⟨_, h1, h2, _⟩ := hM
  obtain ⟨_, k1, k2, _⟩ := hP
  cases M; cases P
  simp only [GLMatrix.mk.injEq] at *
  exact ⟨h1.trans k1.symm, h2.trans k2.symm, trivial⟩

/-- On the identity, `translate` leaves the transform matrix it builds. -/
theorem translate_identity [Semiring α] {d : Nat} (hd : 4 ≤ d) (x y z : α) :
    (prototype.translate (identity d : GLMatrix α) x y z).receiver
      = prototype.set (prototype.set (prototype.set (identity d) 0 3 x) 1 3 y) 2 3 z := by
  have hI : Built d (identity d : GLMatrix α) := built_identity (by omega)
  obtain ⟨P, bP, _, hT⟩ := translate_eq hI hd x y z
  have hTb : Built d
      (prototype.set (prototype.set (prototype.set (identity d : GLMatrix α) 0 3 x) 1 3 y)
        2 3 z) :=
    built_set (built_set (built_set hI (by omega) (by omega) x)
      (by omega) (by omega) y) (by omega) (by omega) z
  apply built_ext (by rw [hT]; exact built_withElements hI bP) hTb
  intro r c hr hc
  obtain ⟨g0, g1, g2, g3⟩ := translate_get hI hd x y z hc
  rw [get_translateTransform hd x y z hr hc]
  have h3 : (3 : Nat) < d := by omega
  rcases Nat.lt_or_ge r 3 with hlt | hge
  · have hr3 : r = 0 ∨ r = 1 ∨ r = 2 := by omega
    rcases hr3 with rfl | rfl | rfl
    · rw [g0, get_identity hr hc, get_identity h3 hc]
      by_cases e3 : c = 3
      · subst e3; simp
      · simp [e3, Ne.symm e3]
    · rw [g1, get_identity hr hc, get_identity h3 hc]
      by_cases e3 : c = 3
      · subst e3; simp
      · simp [e3, Ne.symm e3]
    · rw [g2, get_identity hr hc, get_identity h3 hc]
      by_cases e3 : c = 3
      · subst e3; simp
      · simp [e3, Ne.symm e3]
  · rw [g3 r hge hr, get_identity hr hc,
      if_neg (show ¬(r = 2 ∧ c = 3) from fun h => by omega),
      if_neg (show ¬(r = 1 ∧ c = 3) from fun h => by omega),
      if_neg (show ¬(r = 0 ∧ c = 3) from fun h => by omega)]

/-- On the identity, `scale` leaves the transform matrix it builds. -/
theorem scale_identity [Semiring α] {d : Nat} (hd : 3 ≤ d) (x y z : α) :
    (prototype.scale (identity d : GLMatrix α) x y z).receiver
      = prototype.set (prototype.set (prototype.set (identity d) 0 0 x) 1 1 y) 2 2 z := by
  have hI : Built d (identity d : GLMatrix α) := built_identity (by omega)
  obtain ⟨P, bP, _, hT⟩ := scale_eq hI hd x y z
  have hTb : Built d
      (prototype.set (prototype.set (prototype.set (identity d : GLMatrix α) 0 0 x) 1 1 y)
        2 2 z) :=
    built_set (built_set (built_set hI (by omega) (by omega) x)
      (by omega) (by omega) y) (by omega) (by omega) z
  apply built_ext (by rw [hT]; exact built_withElements hI bP) hTb
  intro r c hr hc
  obtain ⟨g0, g1, g2, g3⟩ := scale_get hI hd x y z hc
  rw [get_scaleTransform hd x y z hr hc]
  rcases Nat.lt_or_ge r 3 with hlt | hge
  · have hr3 : r = 0 ∨ r = 1 ∨ r = 2 := by omega
    rcases hr3 with rfl | rfl | rfl
    · rw [g0, get_identity hr hc]
      by_cases e : c = 0
      · subst e; simp
      · simp [e, Ne.symm e]
    · rw [g1, get_identity hr hc]
      by_cases e : c = 1
      · subst e; simp
      · simp [e, Ne.symm e]
    · rw [g2, get_identity hr hc]
      by_cases e : c = 2
      · subst e; simp
      · simp [e, Ne.symm e]
  · rw [g3 r hge hr, get_identity hr hc,
      if_neg (show ¬(r = 2 ∧ c = 2) from fun h => by omega),
      if_neg (show ¬(r = 1 ∧ c = 1) from fun h => by omega),
      if_neg (show ¬(r = 0 ∧ c = 0) from fun h => by omega)]

end Entries

/-! ## Entries written by the projection builders -/

section Projection

variable {α : Type} [JSUndefined α]

/-- Entries of the receiver after `setOrthographic`, for `d >= 4`. -/
theorem setOrthographic_get [Field α] {d : Nat} {M : GLMatrix α} (hM : Built d M)
    (hd : 4 ≤ d) (xLeft xRight yDown yUp zNear zFar : α) {r c : Nat} (hr : r < d)
    (hc : c < d) :
    prototype.get (prototype.setOrthographic M xLeft xRight yDown yUp zNear zFar).receiver r c
      = if r = 2 ∧ c = 3 then -zNear / ((zFar - zNear) / 2) - 1
        else if r = 1 ∧ c = 3 then -yDown / ((yUp - yDown) / 2) - 1
        else if r = 0 ∧ c = 3 then -xLeft / ((xRight - xLeft) / 2) - 1
        else if r = 2 ∧ c = 2 then 1 / ((zFar - zNear) / 2)
        else if r = 1 ∧ c = 1 then 1 / ((yUp - yDown) / 2)
        else if r = 0 ∧ c = 0 then 1 / ((xRight - xLeft) / 2)
        else if r = c then 1 else 0 := by
  have h0 : Built d (prototype.identity M) := built_protoIdentity hM
  have h1 := built_set h0 (show 0 < d by omega) (show 0 < d by omega)
    (1 / ((xRight - xLeft) / 2))
  have h2 := built_set h1 (show 1 < d by omega) (show 1 < d by omega)
    (1 / ((yUp - yDown) / 2))
  have h3 := built_set h2 (show 2 < d by omega) (show 2 < d by omega)
    (1 / ((zFar - zNear) / 2))
  have h4 := built_set h3 (show 0 < d by omega) (show 3 < d by omega)
    (-xLeft / ((xRight - xLeft) / 2) - 1)
  have h5 := built_set h4 (show 1 < d by omega) (show 3 < d by omega)
    (-yDown / ((yUp - yDown) / 2) - 1)
  unfold prototype.setOrthographic
  rw [if_neg (by rw [hM.2.1]; omega)]
  dsimp only
  rw [get_set h5.2.1 (by omega) hr, get_set h4.2.1 (by omega) hr,
    get_set h3.2.1 (by omega) hr, get_set h2.2.1 (by omega) hr,
    get_set h1.2.1 (by omega) hr, get_set h0.2.1 (by omega) hr,
    get_protoIdentity hM hr hc]

/-- Entries of the receiver after `setFrustum`, for `d >= 4`. -/
theorem setFrustum_get [Field α] {d : Nat} {M : GLMatrix α} (hM : Built d M)
    (hd : 4 ≤ d) (xLeft xRight yDown yUp zNear zFar : α) {r c : Nat} (hr : r < d)
    (hc : c < d) :
    prototype.get (prototype.setFrustum M xLeft xRight yDown yUp zNear zFar).receiver r c
      = if r = 3 ∧ c = 3 then 0
        else if r = 3 ∧ c = 2 then 1
        else if r = 2 ∧ c = 3 then -(zNear * zFar / ((zFar - zNear) / 2))
        else if r = 2 ∧ c = 2 then zNear / ((zFar - zNear) / 2) + 1
        else if r = 1 ∧ c = 2 then -yDown / ((yUp - yDown) / 2) - 1
        else if r = 0 ∧ c = 2 then -xLeft / ((xRight - xLeft) / 2) - 1
        else if r = 1 ∧ c = 1 then zNear / ((yUp - yDown) / 2)
        else if r = 0 ∧ c = 0 then zNear / ((xRight - xLeft) / 2)
        else 0 := by
  have h0 : Built d (prototype.empty M) := built_empty hM
  have h1 := built_set h0 (show 0 < d by omega) (show 0 < d by omega)
    (zNear / ((xRight - xLeft) / 2))
  have h2 := built_set h1 (show 1 < d by omega) (show 1 < d by omega)
    (zNear / ((yUp - yDown) / 2))
  have h3 := built_set h2 (show 0 < d by omega) (show 2 < d by omega)
    (-xLeft / ((xRight - xLeft) / 2) - 1)
  have h4 := built_set h3 (show 1 < d by omega) (show 2 < d by omega)
    (-yDown / ((yUp - yDown) / 2) - 1)
  have h5 := built_set h4 (show 2 < d by omega) (show 2 < d by omega)
    (zNear / ((zFar - zNear) / 2) + 1)
  have h6 := built_set h5 (show 2 < d by omega) (show 3 < d by omega)
    (-(zNear * zFar / ((zFar - zNear) / 2)))
  have h7 := built_set h6 (show 3 < d by omega) (show 2 < d by omega) (1 : α)
  unfold prototype.setFrustum
  rw [if_neg (by rw [hM.2.1]; omega)]
  dsimp only
  rw [get_set h7.2.1 (by omega) hr, get_set h6.2.1 (by omega) hr,
    get_set h5.2.1 (by omega) hr, get_set h4.2.1 (by omega) hr,
    get_set h3.2.1 (by omega) hr, get_set h2.2.1 (by omega) hr,
    get_set h1.2.1 (by omega) hr, get_set h0.2.1 (by omega) hr,
    get_empty hM hr hc]

/-- The static `orthographic` returns the receiver that `setOrthographic` leaves. -/
theorem orthographic_eq [Field α] (xLeft xRight yDown yUp zNear zFar : α) :
    orthographic xLeft xRight yDown yUp zNear zFar
      = .ok (prototype.setOrthographic (new 4) xLeft xRight yDown yUp zNear zFar).receiver :=
  returned_ok
    (setOrthographic_ok (built_new (by omega)) (Nat.le_refl 4) _ _ _ _ _ _).1

/-- The static `frustum` returns the receiver that `setFrustum` leaves. -/
theorem frustum_eq [Field α] (xLeft xRight yDown yUp zNear zFar : α) :
    frustum xLeft xRight yDown yUp zNear zFar
      = .ok (prototype.setFrustum (new 4) xLeft xRight yDown yUp zNear zFar).receiver :=
  returned_ok
    (setFrustum_ok (built_new (by omega)) (Nat.le_refl 4) _ _ _ _ _ _).1

/-- The receiver that `setFrustum` leaves on a fresh 4x4 matrix, element by element. -/
theorem setFrustum_new4 [Field α] (xLeft xRight yDown yUp zNear zFar : α) :
    (prototype.setFrustum (new 4 : GLMatrix α) xLeft xRight yDown yUp zNear zFar).receiver
      = ⟨4, 16,
          [zNear / ((xRight - xLeft) / 2), 0, 0, 0,
           0, zNear / ((yUp - yDown) / 2), 0, 0,
           -xLeft / ((xRight - xLeft) / 2) - 1, -yDown / ((yUp - yDown) / 2) - 1,
             zNear / ((zFar - zNear) / 2) + 1, 1,
           0, 0, -(zNear * zFar / ((zFar - zNear) / 2)), 0]⟩ := by
  have hnew : Built 4 (new 4 : GLMatrix α) := built_new (by omega)
  have hN : Built 4 (⟨4, 16,
      [zNear / ((xRight - xLeft) / 2), 0, 0, 0,
       0, zNear / ((yUp - yDown) / 2), 0, 0,
       -xLeft / ((xRight - xLeft) / 2) - 1, -yDown / ((yUp - yDown) / 2) - 1,
         zNear / ((zFar - zNear) / 2) + 1, 1,
       0, 0, -(zNear * zFar / ((zFar - zNear) / 2)), 0]⟩ : GLMatrix α) :=
    ⟨by omega, rfl, rfl, rfl⟩
  apply built_ext (setFrustum_ok hnew (Nat.le_refl 4) _ _ _ _ _ _).2 hN
  intro r c hr hc
  rw [setFrustum_get hnew (Nat.le_refl 4) _ _ _ _ _ _ hr hc]
  interval_cases r <;> interval_cases c <;> simp [prototype.get, jsGet]

end Projection

/-! ## Rotation -/

section Rotation

variable {α : Type} [JSUndefined α]

/-- Entries of what `add` returns on two matrices of the same shape. -/
theorem add_get [Zero α] [Add α] {d : Nat} {A B : GLMatrix α} (hA : Built d A)
    (hB : Built d B) :
    ∃ P, prototype.add A B = .ok P ∧ Built d P ∧
      ∀ r c, r < d → c < d →
        prototype.get P r c = prototype.get A r c + prototype.get B r c := by
  obtain ⟨P, e, bP, g⟩ := add_built hA (hA.2.2.1.trans hB.2.2.1.symm)
  refine ⟨P, e, bP, ?_⟩
  intro r c hr hc
  unfold prototype.get
  rw [bP.2.1, hA.2.1, hB.2.1]
  exact g _ (idx_lt hr hc)

/-- Entries of what the scalar branch of `mul` returns. -/
theorem mul_number_get [Zero α] [Add α] [Mul α] {d : Nat} {A : GLMatrix α}
    (hA : Built d A) (x : α) :
    ∃ P, prototype.mul A (.number x) = .ok P ∧ Built d P ∧
      ∀ r c, r < d → c < d → prototype.get P r c = prototype.get A r c * x := by
  obtain ⟨P, e, bP, g⟩ := mul_number hA x
  refine ⟨P, e, bP, ?_⟩
  intro r c hr hc
  unfold prototype.get
  rw [bP.2.1, hA.2.1]
  exact g _ (idx_lt hr hc)

/-- The matrix `axis` that `rotate` fills is the cross-product matrix of the
specification. -/
theorem get_rotateAxis [Zero α] [Neg α] {d : Nat} (hd : 3 ≤ d) (x y z : α) {r c : Nat}
    (hr : r < d) (hc : c < d) :
    prototype.get
        (prototype.set (prototype.set (prototype.set (prototype.set (prototype.set
          (prototype.set (new d : GLMatrix α) 0 1 (-z)) 0 2 y) 1 2 (-x)) 1 0 z)
          2 0 (-y)) 2 1 x) r c
      = skewSpec x y z r c := by
  have h0 : Built d (new d : GLMatrix α) := built_new (by omega)
  have h1 := built_set h0 (show 0 < d by omega) (show 1 < d by omega) (-z)
  have h2 := built_set h1 (show 0 < d by omega) (show 2 < d by omega) y
  have h3 := built_set h2 (show 1 < d by omega) (show 2 < d by omega) (-x)
  have h4 := built_set h3 (show 1 < d by omega) (show 0 < d by omega) z
  have h5 := built_set h4 (show 2 < d by omega) (show 0 < d by omega) (-y)
  rw [get_set h5.2.1 (by omega) hr, get_set h4.2.1 (by omega) hr,
    get_set h3.2.1 (by omega) hr, get_set h2.2.1 (by omega) hr,
    get_set h1.2.1 (by omega) hr, get_set h0.2.1 (by omega) hr, get_new hr hc]
  unfold skewSpec
  split_ifs <;> first | rfl | omega

/-- Method `rotate` on a matrix built with dimension `d >= 3`: it returns, and the
receiver takes the entries of the product of the specification's rotation matrix
with the matrix as it was. -/
theorem rotate_get [Field α] (Math : JSMath α) {d : Nat} {M : GLMatrix α}
    (hM : Built d M) (hd : 3 ≤ d) (angle ax ay az : α) :
    (prototype.rotate Math M angle ax ay az).thrown = none ∧
    Built d (prototype.rotate Math M angle ax ay az).receiver ∧
    ∀ r c, r < d → c < d →
      prototype.get (prototype.rotate Math M angle ax ay az).receiver r c
        = ∑ k in Finset.range d,
            rodriguesSpec d (Math.sin (degreeToRadian Math angle))
              (Math.cos (degreeToRadian Math angle))
              (ax / Math.sqrt (ax * ax + ay * ay + az * az))
              (ay / Math.sqrt (ax * ax + ay * ay + az * az))
              (az / Math.sqrt (ax * ax + ay * ay + az * az)) r k
            * prototype.get M k c := by
  unfold prototype.rotate
  rw [if_neg (by rw [hM.2.1]; omega)]
  simp only [hM.2.1]
  generalize hax : prototype.set (prototype.set (prototype.set (prototype.set
    (prototype.set (prototype.set (new d : GLMatrix α) 0 1 _) 0 2 _) 1 2 _) 1 0 _)
    2 0 _) 2 1 _ = axis
  have hAxis : Built d axis := by
    rw [← hax]
    exact built_set (built_set (built_set (built_set (built_set (built_set
      (built_new hM.1) (by omega) (by omega) _) (by omega) (by omega) _)
      (by omega) (by omega) _) (by omega) (by omega) _) (by omega) (by omega) _)
      (by omega) (by omega) _
  have gAxis : ∀ r c, r < d → c < d →
      prototype.get axis r c
        = skewSpec (ax / Math.sqrt (ax * ax + ay * ay + az * az))
            (ay / Math.sqrt (ax * ax + ay * ay + az * az))
            (az / Math.sqrt (ax * ax + ay * ay + az * az)) r c := by
    intro r c hr hc
    rw [← hax]
    exact get_rotateAxis hd _ _ _ hr hc
  have hI : Built d (identity d : GLMatrix α) := built_identity hM.1
  obtain ⟨S1, e1, b1, g1⟩ := mul_number_get hAxis (Math.sin (degreeToRadian Math angle))
  obtain ⟨S2, e2, b2, g2⟩ := add_get hI b1
  obtain ⟨S3, e3, b3, g3⟩ := mul_matrix_sum hAxis (rfl : axis.size = axis.size)
  obtain ⟨S4, e4, b4, g4⟩ := mul_number_get b3 (1 - Math.cos (degreeToRadian Math angle))
  obtain ⟨S5, e5, b5, g5⟩ := add_get b2 b4
  obtain ⟨S6, e6, b6, g6⟩ := mul_matrix_sum b5 (b5.2.2.1.trans hM.2.2.1.symm)
  simp only [e1, e2, e3, e4, e5, e6, bind, Except.bind]
  refine ⟨trivial, ⟨hM.1, rfl, hM.2.2.1, b6.2.2.2⟩, ?_⟩
  intro r c hr hc
  have hget : prototype.get
      ({ dimension := d, size := M.size, elements := S6.elements } : GLMatrix α) r c
        = prototype.get S6 r c := by
    unfold prototype.get
    simp only [b6.2.1]
  rw [hget, g6 r c hr hc]
  apply Finset.sum_congr rfl
  intro k hk
  have hk' : k < d := Finset.mem_range.mp hk
  have hsum : ∑ j in Finset.range d, prototype.get axis r j * prototype.get axis j k
      = ∑ j in Finset.range d,
          skewSpec (ax / Math.sqrt (ax * ax + ay * ay + az * az))
            (ay / Math.sqrt (ax * ax + ay * ay + az * az))
            (az / Math.sqrt (ax * ax + ay * ay + az * az)) r j
          * skewSpec (ax / Math.sqrt (ax * ax + ay * ay + az * az))
            (ay / Math.sqrt (ax * ax + ay * ay + az * az))
            (az / Math.sqrt (ax * ax + ay * ay + az * az)) j k :=
    Finset.sum_congr rfl (fun j hj => by
      rw [gAxis r j hr (Finset.mem_range.mp hj), gAxis j k (Finset.mem_range.mp hj) hk'])
  rw [g5 r k hr hk', g2 r k hr hk', g4 r k hr hk', g1 r k hr hk', g3 r k hr hk',
    get_identity hr hk', gAxis r k hr hk', hsum]
  unfold rodriguesSpec
  ring

/-- Method `rotate` on a matrix built with dimension `d >= 3`: the matrix it
multiplies the receiver with has the entries of the specification's rotation
matrix. -/
theorem rotate_eq_mul [Field α] (Math : JSMath α) {d : Nat} {M : GLMatrix α}
    (hM : Built d M) (hd : 3 ≤ d) (angle ax ay az : α) :
    ∃ R P, Built d R ∧
      (∀ r k, r < d → k < d →
        prototype.get R r k
          = rodriguesSpec d (Math.sin (degreeToRadian Math angle))
              (Math.cos (degreeToRadian Math angle))
              (ax / Math.sqrt (ax * ax + ay * ay + az * az))
              (ay / Math.sqrt (ax * ax + ay * ay + az * az))
              (az / Math.sqrt (ax * ax + ay * ay + az * az)) r k) ∧
      prototype.mul R (.matrix M) = .ok P ∧
      prototype.rotate Math M angle ax ay az = ⟨{ M with elements := P.elements }, none⟩ := by
  unfold prototype.rotate
  rw [if_neg (by rw [hM.2.1]; omega)]
  simp only [hM.2.1]
  generalize hax : prototype.set (prototype.set (prototype.set (prototype.set
    (prototype.set (prototype.set (new d : GLMatrix α) 0 1 _) 0 2 _) 1 2 _) 1 0 _)
    2 0 _) 2 1 _ = axis
  have hAxis : Built d axis := by
    rw [← hax]
    exact built_set (built_set (built_set (built_set (built_set (built_set
      (built_new hM.1) (by omega) (by omega) _) (by omega) (by omega) _)
      (by omega) (by omega) _) (by omega) (by omega) _) (by omega) (by omega) _)
      (by omega) (by omega) _
  have gAxis : ∀ r c, r < d → c < d →
      prototype.get axis r c
        = skewSpec (ax / Math.sqrt (ax * ax + ay * ay + az * az))
            (ay / Math.sqrt (ax * ax + ay * ay + az * az))
            (az / Math.sqrt (ax * ax + ay * ay + az * az)) r c := by
    intro r c hr hc
    rw [← hax]
    exact get_rotateAxis hd _ _ _ hr hc
  have hI : Built d (identity d : GLMatrix α) := built_identity hM.1
  obtain ⟨S1, e1, b1, g1⟩ := mul_number_get hAxis (Math.sin (degreeToRadian Math angle))
  obtain ⟨S2, e2, b2, g2⟩ := add_get hI b1
  obtain ⟨S3, e3, b3, g3⟩ := mul_matrix_sum hAxis (rfl : axis.size = axis.size)
  obtain ⟨S4, e4, b4, g4⟩ := mul_number_get b3 (1 - Math.cos (degreeToRadian Math angle))
  obtain ⟨S5, e5, b5, g5⟩ := add_get b2 b4
  obtain ⟨S6, e6, b6, _⟩ := mul_matrix_sum b5 (b5.2.2.1.trans hM.2.2.1.symm)
  refine ⟨S5, S6, b5, ?_, e6, ?_⟩
  · intro r k hr hk
    have hsum : ∑ j in Finset.range d, prototype.get axis r j * prototype.get axis j k
        = ∑ j in Finset.range d,
            skewSpec (ax / Math.sqrt (ax * ax + ay * ay + az * az))
              (ay / Math.sqrt (ax * ax + ay * ay + az * az))
              (az / Math.sqrt (ax * ax + ay * ay + az * az)) r j
            * skewSpec (ax / Math.sqrt (ax * ax + ay * ay + az * az))
              (ay / Math.sqrt (ax * ax + ay * ay + az * az))
              (az / Math.sqrt (ax * ax + ay * ay + az * az)) j k :=
      Finset.sum_congr rfl (fun j hj => by
        rw [gAxis r j hr (Finset.mem_range.mp hj), gAxis j k (Finset.mem_range.mp hj) hk])
    rw [g5 r k hr hk, g2 r k hr hk, g4 r k hr hk, g1 r k hr hk, g3 r k hr hk,
      get_identity hr hk, gAxis r k hr hk, hsum]
    unfold rodriguesSpec
    ring
  · simp only [e1, e2, e3, e4, e5, e6, bind, Except.bind]

omit [JSUndefined α] in
theorem skewSpec_of_ge [Zero α] [Neg α] (x y z : α) {r c : Nat} (h : 3 ≤ r ∨ 3 ≤ c) :
    skewSpec x y z r c = 0 := by
  unfold skewSpec
  split_ifs <;> first | rfl | omega

omit [JSUndefined α] in
/-- Only the first three rows and columns of `K` contribute to `K * K`. -/
theorem rodriguesSpec_three [Field α] {d : Nat} (hd : 3 ≤ d) (s c x y z : α) (r k : Nat) :
    rodriguesSpec d s c x y z r k = rodriguesSpec 3 s c x y z r k := by
  unfold rodriguesSpec
  congr 2
  symm
  apply Finset.sum_subset (Finset.range_subset.mpr hd)
  intro j _ hj
  have hj3 : 3 ≤ j := by
    rw [Finset.mem_range] at hj
    omega
  rw [skewSpec_of_ge x y z (Or.inl hj3 : 3 ≤ j ∨ 3 ≤ k), mul_zero]

omit [JSUndefined α] in
/-- Outside the first three rows and columns the rotation matrix is the identity. -/
theorem rodriguesSpec_of_ge [Field α] (s c x y z : α) {r k : Nat} (h : 3 ≤ r ∨ 3 ≤ k) :
    rodriguesSpec 3 s c x y z r k = if r = k then 1 else 0 := by
  unfold rodriguesSpec
  have h0 : skewSpec x y z r k = 0 := skewSpec_of_ge x y z h
  have hs : ∑ j in Finset.range 3, skewSpec x y z r j * skewSpec x y z j k = 0 := by
    apply Finset.sum_eq_zero
    intro j _
    rcases h with h | h
    · rw [skewSpec_of_ge x y z (Or.inl h : 3 ≤ r ∨ 3 ≤ j), zero_mul]
    · rw [skewSpec_of_ge x y z (Or.inr h : 3 ≤ j ∨ 3 ≤ k), mul_zero]
  rw [h0, hs]
  ring

omit [JSUndefined α] in
/-- The rotation matrix applied to a column: the first three rows mix the first three
components, every other row is kept. -/
theorem rodrigues_apply [Field α] {d : Nat} (hd : 3 ≤ d) (s c x y z : α) (v : Nat → α)
    {r : Nat} (hr : r < d) :
    ∑ k in Finset.range d, rodriguesSpec d s c x y z r k * v k
      = if r < 3 then ∑ k in Finset.range 3, rodriguesSpec 3 s c x y z r k * v k
        else v r := by
  have h3 : ∑ k in Finset.range d, rodriguesSpec d s c x y z r k * v k
      = ∑ k in Finset.range d, rodriguesSpec 3 s c x y z r k * v k :=
    Finset.sum_congr rfl (fun k _ => by rw [rodriguesSpec_three hd])
  rw [h3]
  by_cases hlt : r < 3
  · rw [if_pos hlt]
    symm
    apply Finset.sum_subset (Finset.range_subset.mpr hd)
    intro k _ hk
    have hk3 : 3 ≤ k := by
      rw [Finset.mem_range] at hk
      omega
    rw [rodriguesSpec_of_ge s c x y z (Or.inr hk3 : 3 ≤ r ∨ 3 ≤ k),
      if_neg (by omega), zero_mul]
  · rw [if_neg hlt,
      sum_row_one hr 1 (fun k => rodriguesSpec 3 s c x y z r k) v (fun k _ => by
        show rodriguesSpec 3 s c x y z r k = if k = r then 1 else 0
        rw [rodriguesSpec_of_ge s c x y z (Or.inl (by omega) : 3 ≤ r ∨ 3 ≤ k)]
        by_cases e : r = k
        · rw [if_pos e, if_pos e.symm]
        · rw [if_neg e, if_neg (Ne.symm e)]),
      one_mul]

/-- A rotation whose sine is `0` and whose cosine is `1` leaves the receiver as it
was. -/
theorem rotate_of_sin_zero [Field α] (Math : JSMath α) {d : Nat} {M : GLMatrix α}
    (hM : Built d M) (hd : 3 ≤ d) (angle ax ay az : α)
    (hsin : Math.sin (degreeToRadian Math angle) = 0)
    (hcos : Math.cos (degreeToRadian Math angle) = 1) :
    prototype.rotate Math M angle ax ay az = ⟨M, none⟩ := by
  obtain ⟨h1, h2, h3⟩ := rotate_get Math hM hd angle ax ay az
  have hrec : (prototype.rotate Math M angle ax ay az).receiver = M := by
    apply built_ext h2 hM
    intro r c hr hc
    rw [h3 r c hr hc, hsin, hcos, rodrigues_apply hd _ _ _ _ _ _ hr]
    by_cases hlt : r < 3
    · rw [if_pos hlt]
      have hr3 : r = 0 ∨ r = 1 ∨ r = 2 := by omega
      rcases hr3 with rfl | rfl | rfl <;>
        simp [Finset.sum_range_succ, rodriguesSpec, skewSpec]
    · rw [if_neg hlt]
  cases hout : prototype.rotate Math M angle ax ay az with
  | mk receiver thrown =>
    rw [hout] at h1 hrec
    simp only at h1 hrec
    rw [h1, hrec]

omit [JSUndefined α] in
/-- On the first three components, the rotation matrix for `(-sn, cs)` undoes the one
for `(sn, cs)` when `sn² + cs² = 1` and the axis has length 1. -/
theorem rodrigues_inverse3 [Field α] (sn cs x y z : α)
    (htrig : sn * sn + cs * cs = 1) (hunit : x * x + y * y + z * z = 1)
    (v : Nat → α) {r : Nat} (hr : r < 3) :
    ∑ k in Finset.range 3,
        rodriguesSpec 3 (-sn) cs x y z r k
          * ∑ j in Finset.range 3, rodriguesSpec 3 sn cs x y z k j * v j
      = v r := by
  generalize h0 : v 0 = m0
  generalize h1 : v 1 = m1
  generalize h2 : v 2 = m2
  have hr3 : r = 0 ∨ r = 1 ∨ r = 2 := by omega
  rcases hr3 with rfl | rfl | rfl
  · simp [rodriguesSpec, skewSpec, Finset.sum_range_succ, h0, h1, h2]
    linear_combination
      (-(-(y * y + z * z) * m0 + x * y * m1 + x * z * m2)) * htrig
      + (-(1 - cs) ^ 2 * (-(y * y + z * z) * m0 + x * y * m1 + x * z * m2)) * hunit
  · simp [rodriguesSpec, skewSpec, Finset.sum_range_succ, h0, h1, h2]
    linear_combination
      (-(x * y * m0 - (x * x + z * z) * m1 + y * z * m2)) * htrig
      + (-(1 - cs) ^ 2 * (x * y * m0 - (x * x + z * z) * m1 + y * z * m2)) * hunit
  · simp [rodriguesSpec, skewSpec, Finset.sum_range_succ, h0, h1, h2]
    linear_combination
      (-(x * z * m0 + y * z * m1 - (x * x + y * y) * m2)) * htrig
      + (-(1 - cs) ^ 2 * (x * z * m0 + y * z * m1 - (x * x + y * y) * m2)) * hunit

/-- Rotating by an angle and then by the opposite angle about the same unit axis
gives back the matrix, for any sine and cosine with `sin² + cos² = 1`, odd sine and
even cosine. -/
theorem rotate_back [Field α] (Math : JSMath α) {d : Nat} {M : GLMatrix α}
    (hM : Built d M) (hd : 3 ≤ d) (angle ax ay az : α)
    (hsin : Math.sin (degreeToRadian Math (-angle))
      = -Math.sin (degreeToRadian Math angle))
    (hcos : Math.cos (degreeToRadian Math (-angle))
      = Math.cos (degreeToRadian Math angle))
    (htrig : Math.sin (degreeToRadian Math angle) * Math.sin (degreeToRadian Math angle)
      + Math.cos (degreeToRadian Math angle) * Math.cos (degreeToRadian Math angle) = 1)
    (hunit : ax / Math.sqrt (ax * ax + ay * ay + az * az)
        * (ax / Math.sqrt (ax * ax + ay * ay + az * az))
      + ay / Math.sqrt (ax * ax + ay * ay + az * az)
        * (ay / Math.sqrt (ax * ax + ay * ay + az * az))
      + az / Math.sqrt (ax * ax + ay * ay + az * az)
        * (az / Math.sqrt (ax * ax + ay * ay + az * az)) = 1) :
    (prototype.rotate Math (prototype.rotate Math M angle ax ay az).receiver
      (-angle) ax ay az).receiver = M := by
  obtain ⟨_, b1, g1⟩ := rotate_get Math hM hd angle ax ay az
  obtain ⟨_, b2, g2⟩ := rotate_get Math b1 hd (-angle) ax ay az
  apply built_ext b2 hM
  intro r c hr hc
  have first : ∀ k, k < d →
      prototype.get (prototype.rotate Math M angle ax ay az).receiver k c
        = if k < 3 then
            ∑ j in Finset.range 3,
              rodriguesSpec 3 (Math.sin (degreeToRadian Math angle))
                (Math.cos (degreeToRadian Math angle))
                (ax / Math.sqrt (ax * ax + ay * ay + az * az))
                (ay / Math.sqrt (ax * ax + ay * ay + az * az))
                (az / Math.sqrt (ax * ax + ay * ay + az * az)) k j
              * prototype.get M j c
          else prototype.get M k c := by
    intro k hk
    rw [g1 k c hk hc, rodrigues_apply hd _ _ _ _ _ (fun j => prototype.get M j c) hk]
  rw [g2 r c hr hc, hsin, hcos,
    rodrigues_apply hd _ _ _ _ _
      (fun k => prototype.get (prototype.rotate Math M angle ax ay az).receiver k c) hr]
  by_cases hlt : r < 3
  · rw [if_pos hlt]
    have inner : ∀ k ∈ Finset.range 3,
        rodriguesSpec 3 (-Math.sin (degreeToRadian Math angle))
            (Math.cos (degreeToRadian Math angle))
            (ax / Math.sqrt (ax * ax + ay * ay + az * az))
            (ay / Math.sqrt (ax * ax + ay * ay + az * az))
            (az / Math.sqrt (ax * ax + ay * ay + az * az)) r k
          * prototype.get (prototype.rotate Math M angle ax ay az).receiver k c
        = rodriguesSpec 3 (-Math.sin (degreeToRadian Math angle))
            (Math.cos (degreeToRadian Math angle))
            (ax / Math.sqrt (ax * ax + ay * ay + az * az))
            (ay / Math.sqrt (ax * ax + ay * ay + az * az))
            (az / Math.sqrt (ax * ax + ay * ay + az * az)) r k
          * ∑ j in Finset.range 3,
              rodriguesSpec 3 (Math.sin (degreeToRadian Math angle))
                (Math.cos (degreeToRadian Math angle))
                (ax / Math.sqrt (ax * ax + ay * ay + az * az))
                (ay / Math.sqrt (ax * ax + ay * ay + az * az))
                (az / Math.sqrt (ax * ax + ay * ay + az * az)) k j
              * prototype.get M j c := by
      intro k hk
      have hk3 : k < 3 := Finset.mem_range.mp hk
      rw [first k (by omega), if_pos hk3]
    rw [Finset.sum_congr rfl inner]
    exact rodrigues_inverse3 _ _ _ _ _ htrig hunit (fun j => prototype.get M j c) hlt
  · rw [if_neg hlt, first r hr, if_neg hlt]

end Rotation

/-! ## Properties of the operations -/

section Properties

variable {α : Type} [JSUndefined α]

/-- C1: for matrices `A` and `B` built with the same positive dimension `d`,
`A.mul(B)` returns a matrix `P` with
`P.get(r, c) = Σ_{k < d} A.get(r, k) * B.get(k, c)` for all `r, c < d`. -/
theorem mul_get_eq_sum [Semiring α] (d : Nat) (A B : GLMatrix α)
    (hA : Built d A) (hB : Built d B) :
    ∃ P, prototype.mul A (.matrix B) = .ok P ∧
      ∀ r c, r < d → c < d →
        prototype.get P r c
          = ∑ k in Finset.range d, prototype.get A r k * prototype.get B k c := by
  obtain ⟨P, h1, _, h3⟩ := mul_matrix_sum hA (hA.2.2.1.trans hB.2.2.1.symm)
  exact ⟨P, h1, h3⟩

theorem mul_get_eq_sum_witness :
    Built 2 (prototype.set (identity 2 : GLMatrix Int) 0 1 5) ∧
    Built 2 (prototype.set (identity 2 : GLMatrix Int) 1 0 7) ∧
    ∃ P, prototype.mul (prototype.set (identity 2 : GLMatrix Int) 0 1 5)
          (.matrix (prototype.set (identity 2 : GLMatrix Int) 1 0 7)) = .ok P ∧
      ∀ r c, r < 2 → c < 2 →
        prototype.get P r c
          = ∑ k in Finset.range 2,
              prototype.get (prototype.set (identity 2 : GLMatrix Int) 0 1 5) r k *
                prototype.get (prototype.set (identity 2 : GLMatrix Int) 1 0 7) k c :=
  ⟨by decide, by decide, mul_get_eq_sum 2 _ _ (by decide) (by decide)⟩

/-- C2: on a matrix built with a positive dimension `d`, for `row, col < d`,
reading `(row, col)` after `set(row, col, v)` returns `v`. -/
theorem get_set_same (d : Nat) (M : GLMatrix α) (hM : Built d M) (row col : Nat)
    (hrow : row < d) (hcol : col < d) (v : α) :
    prototype.get (prototype.set M row col v) row col = v := by
  have _ := hcol
  rw [get_set hM.2.1 hrow hrow]
  simp

theorem get_set_same_witness :
    Built 3 (identity 3 : GLMatrix Int) ∧ 2 < 3 ∧ 1 < 3 ∧
    prototype.get (prototype.set (identity 3 : GLMatrix Int) 2 1 42) 2 1 = 42 :=
  ⟨by decide, by decide, by decide,
    get_set_same 3 _ (by decide) 2 1 (by decide) (by decide) 42⟩

/-- C3: for matrices `A`, `B`, `C` built with the same positive dimension, over exact
(semiring) arithmetic, `A.mul(B).mul(C)` and `A.mul(B.mul(C))` both return and
have equal elements. -/
theorem mul_mul_elements_eq [Semiring α] (d : Nat) (A B C : GLMatrix α)
    (hA : Built d A) (hB : Built d B) (hC : Built d C) :
    ∃ AB L BC R,
      prototype.mul A (.matrix B) = .ok AB ∧ prototype.mul AB (.matrix C) = .ok L ∧
      prototype.mul B (.matrix C) = .ok BC ∧ prototype.mul A (.matrix BC) = .ok R ∧
      L.elements = R.elements := by
  obtain ⟨AB, e1, bAB, gAB⟩ := mul_matrix_sum hA (hA.2.2.1.trans hB.2.2.1.symm)
  obtain ⟨L, e2, bL, gL⟩ := mul_matrix_sum bAB (bAB.2.2.1.trans hC.2.2.1.symm)
  obtain ⟨BC, e3, bBC, gBC⟩ := mul_matrix_sum hB (hB.2.2.1.trans hC.2.2.1.symm)
  obtain ⟨R, e4, bR, gR⟩ := mul_matrix_sum hA (hA.2.2.1.trans bBC.2.2.1.symm)
  refine ⟨AB, L, BC, R, e1, e2, e3, e4, ?_⟩
  have hLR : L = R := by
    apply built_ext bL bR
    intro r c hr hc
    have h1 : ∀ k ∈ Finset.range d,
        prototype.get AB r k * prototype.get C k c
          = (∑ j in Finset.range d, prototype.get A r j * prototype.get B j k) *
              prototype.get C k c :=
      fun k hk => by rw [gAB r k hr (Finset.mem_range.mp hk)]
    have h2 : ∀ j ∈ Finset.range d,
        prototype.get A r j * prototype.get BC j c
          = prototype.get A r j *
              ∑ k in Finset.range d, prototype.get B j k * prototype.get C k c :=
      fun j hj => by rw [gBC j c (Finset.mem_range.mp hj) hc]
    rw [gL r c hr hc, gR r c hr hc, Finset.sum_congr rfl h1, Finset.sum_congr rfl h2]
    simp only [Finset.sum_mul, Finset.mul_sum, mul_assoc]
    exact Finset.sum_comm
  rw [hLR]

theorem mul_mul_elements_eq_witness :
    Built 2 (prototype.set (identity 2 : GLMatrix Int) 0 1 5) ∧
    Built 2 (prototype.set (identity 2 : GLMatrix Int) 1 0 7) ∧
    Built 2 (prototype.set (identity 2 : GLMatrix Int) 1 1 (-3)) ∧
    ∃ AB L BC R,
      prototype.mul (prototype.set (identity 2 : GLMatrix Int) 0 1 5)
        (.matrix (prototype.set (identity 2 : GLMatrix Int) 1 0 7)) = .ok AB ∧
      prototype.mul AB (.matrix (prototype.set (identity 2 : GLMatrix Int) 1 1 (-3))) = .ok L ∧
      prototype.mul (prototype.set (identity 2 : GLMatrix Int) 1 0 7)
        (.matrix (prototype.set (identity 2 : GLMatrix Int) 1 1 (-3))) = .ok BC ∧
      prototype.mul (prototype.set (identity 2 : GLMatrix Int) 0 1 5) (.matrix BC) = .ok R ∧
      L.elements = R.elements :=
  ⟨by decide, by decide, by decide,
    mul_mul_elements_eq 2 _ _ _ (by decide) (by decide) (by decide)⟩

/-- C4: for every positive dimension `d`, `identity(d).mul(identity(d))` returns a
matrix with exactly the elements of `identity(d)`. -/
theorem identity_mul_identity [Semiring α] (d : Nat) (hd : 0 < d) :
    ∃ P, prototype.mul (identity d : GLMatrix α) (.matrix (identity d)) = .ok P ∧
      P.elements = (identity d : GLMatrix α).elements := by
  have hI : Built d (identity d : GLMatrix α) := built_identity hd
  obtain ⟨P, e, bP, gP⟩ := mul_matrix_sum hI (rfl : (identity d : GLMatrix α).size = _)
  refine ⟨P, e, ?_⟩
  have hPI : P = identity d := by
    apply built_ext bP hI
    intro r c hr hc
    have h1 : ∀ k ∈ Finset.range d,
        prototype.get (identity d : GLMatrix α) r k * prototype.get (identity d) k c
          = if r = k then (if k = c then 1 else 0) else 0 :=
      fun k hk => by
        rw [get_identity hr (Finset.mem_range.mp hk),
          get_identity (Finset.mem_range.mp hk) hc]
        split <;> simp
    rw [gP r c hr hc, get_identity hr hc, Finset.sum_congr rfl h1, Finset.sum_ite_eq,
      if_pos (Finset.mem_range.mpr hr)]
  rw [hPI]

theorem identity_mul_identity_witness :
    0 < 3 ∧
    ∃ P, prototype.mul (identity 3 : GLMatrix Int) (.matrix (identity 3)) = .ok P ∧
      P.elements = (identity 3 : GLMatrix Int).elements :=
  ⟨by decide, identity_mul_identity 3 (by decide)⟩

/-- C5: for a matrix `A` built with a positive dimension, over exact (semiring)
arithmetic, `A.add(A)` and `A.mul(2)` both return and their elements agree at
every flat index. -/
theorem add_self_eq_mul_two [Semiring α] (d : Nat) (A : GLMatrix α) (hA : Built d A) :
    ∃ S T, prototype.add A A = .ok S ∧ prototype.mul A (.number 2) = .ok T ∧
      S.elements = T.elements := by
  obtain ⟨S, e1, bS, gS⟩ := add_built hA (rfl : A.size = A.size)
  obtain ⟨T, e2, bT, gT⟩ := mul_number hA (2 : α)
  refine ⟨S, T, e1, e2, ?_⟩
  apply list_ext_jsGet (bS.2.2.2.trans bT.2.2.2.symm)
  intro j hj
  rw [bS.2.2.2] at hj
  rw [gS j hj, gT j hj, mul_two]

theorem add_self_eq_mul_two_witness :
    Built 2 (prototype.set (identity 2 : GLMatrix Int) 0 1 5) ∧
    ∃ S T, prototype.add (prototype.set (identity 2 : GLMatrix Int) 0 1 5)
          (prototype.set (identity 2 : GLMatrix Int) 0 1 5) = .ok S ∧
      prototype.mul (prototype.set (identity 2 : GLMatrix Int) 0 1 5) (.number 2) = .ok T ∧
      S.elements = T.elements :=
  ⟨by decide, add_self_eq_mul_two 2 _ (by decide)⟩

/-- C6: `add` throws "Different matrices size" exactly when the two `size` fields
differ and returns otherwise; so does `mul` with a matrix operand; `mul` with a
number always returns; `mul` with any other operand throws "Invalid parameter
type". -/
theorem add_mul_failures [Zero α] [Add α] [Mul α] (A B : GLMatrix α) (x : α) :
    (prototype.add A B = .error .differentMatricesSize ↔ A.size ≠ B.size) ∧
    ((∃ P, prototype.add A B = .ok P) ↔ A.size = B.size) ∧
    (prototype.mul A (.matrix B) = .error .differentMatricesSize ↔ A.size ≠ B.size) ∧
    ((∃ P, prototype.mul A (.matrix B) = .ok P) ↔ A.size = B.size) ∧
    (∃ P, prototype.mul A (.number x) = .ok P) ∧
    prototype.mul A .other = .error .invalidParameterType := by
  unfold prototype.add prototype.mul
  by_cases h : A.size = B.size
  · simp [h]
  · simp [h]

/-- C7: on a matrix `M` built with a positive dimension `d`, whatever the
arguments, `translate` throws "Wrong matrix dimension" exactly when `d < 4`, `scale`
and `rotate` exactly when `d < 3` (a zero axis does not make `rotate` throw),
`setOrthographic` and `setFrustum` exactly when `d < 4`; and a call that throws
leaves the receiver equal to `M`. -/
theorem dimension_failures [Field α] (Math : JSMath α) (d : Nat) (M : GLMatrix α)
    (hM : Built d M) (x y z angle xLeft xRight yDown yUp zNear zFar : α) :
    (((prototype.translate M x y z).thrown = some .wrongMatrixDimension ↔ d < 4) ∧
      ((prototype.translate M x y z).thrown = none ↔ 4 ≤ d) ∧
      ((prototype.translate M x y z).thrown ≠ none →
        (prototype.translate M x y z).receiver = M)) ∧
    (((prototype.scale M x y z).thrown = some .wrongMatrixDimension ↔ d < 3) ∧
      ((prototype.scale M x y z).thrown = none ↔ 3 ≤ d) ∧
      ((prototype.scale M x y z).thrown ≠ none →
        (prototype.scale M x y z).receiver = M)) ∧
    (((prototype.rotate Math M angle x y z).thrown = some .wrongMatrixDimension ↔ d < 3) ∧
      ((prototype.rotate Math M angle x y z).thrown = none ↔ 3 ≤ d) ∧
      ((prototype.rotate Math M angle x y z).thrown ≠ none →
        (prototype.rotate Math M angle x y z).receiver = M)) ∧
    ((prototype.rotate Math M angle 0 0 0).thrown = none ↔ 3 ≤ d) ∧
    (((prototype.setOrthographic M xLeft xRight yDown yUp zNear zFar).thrown
          = some .wrongMatrixDimension ↔ d < 4) ∧
      ((prototype.setOrthographic M xLeft xRight yDown yUp zNear zFar).thrown = none
          ↔ 4 ≤ d) ∧
      ((prototype.setOrthographic M xLeft xRight yDown yUp zNear zFar).thrown ≠ none →
        (prototype.setOrthographic M xLeft xRight yDown yUp zNear zFar).receiver = M)) ∧
    (((prototype.setFrustum M xLeft xRight yDown yUp zNear zFar).thrown
          = some .wrongMatrixDimension ↔ d < 4) ∧
      ((prototype.setFrustum M xLeft xRight yDown yUp zNear zFar).thrown = none
          ↔ 4 ≤ d) ∧
      ((prototype.setFrustum M xLeft xRight yDown yUp zNear zFar).thrown ≠ none →
        (prototype.setFrustum M xLeft xRight yDown yUp zNear zFar).receiver = M)) := by
  have hrot : ∀ a b c : α,
      3 ≤ d → (prototype.rotate Math M angle a b c).thrown = none := by
    intro a b c h
    obtain ⟨P, _, e⟩ := rotate_eq Math hM h angle a b c
    rw [e]
  refine ⟨?_, ?_, ?_, ?_, ?_, ?_⟩
  · apply fails_exactly_below
    · intro h; exact translate_fail M (by rw [hM.2.1]; exact h) x y z
    · intro h
      obtain ⟨P, _, _, e⟩ := translate_eq hM h x y z
      rw [e]
  · apply fails_exactly_below
    · intro h; exact scale_fail M (by rw [hM.2.1]; exact h) x y z
    · intro h
      obtain ⟨P, _, _, e⟩ := scale_eq hM h x y z
      rw [e]
  · apply fails_exactly_below
    · intro h; exact rotate_fail Math M (by rw [hM.2.1]; exact h) angle x y z
    · exact hrot x y z
  · exact (fails_exactly_below (M := M)
      (fun h => rotate_fail Math M (by rw [hM.2.1]; exact h) angle 0 0 0)
      (hrot 0 0 0)).2.1
  · apply fails_exactly_below
    · intro h; exact setOrthographic_fail M (by rw [hM.2.1]; exact h) _ _ _ _ _ _
    · intro h; exact (setOrthographic_ok hM h _ _ _ _ _ _).1
  · apply fails_exactly_below
    · intro h; exact setFrustum_fail M (by rw [hM.2.1]; exact h) _ _ _ _ _ _
    · intro h; exact (setFrustum_ok hM h _ _ _ _ _ _).1

theorem dimension_failures_witness :
    Built 3 (identity 3 : GLMatrix Rat) ∧
    ((prototype.translate (identity 3 : GLMatrix Rat) 1 2 3).thrown
        = some .wrongMatrixDimension ↔ 3 < 4) ∧
    ((prototype.rotate ⟨fun a => a, fun _ => 1, fun _ => 0, fun _ => 0, 3⟩
        (identity 3 : GLMatrix Rat) 90 0 0 0).thrown = none ↔ 3 ≤ 3) :=
  ⟨built_identity (by decide),
    (dimension_failures ⟨fun a => a, fun _ => 1, fun _ => 0, fun _ => 0, 3⟩ 3
      (identity 3) (built_identity (by decide)) 1 2 3 90 0 0 0 0 0 0).1.1,
    (dimension_failures ⟨fun a => a, fun _ => 1, fun _ => 0, fun _ => 0, 3⟩ 3
      (identity 3) (built_identity (by decide)) 1 2 3 90 0 0 0 0 0 0).2.2.2.1⟩

/-- C8: a matrix constructed with a positive dimension `d` has `d * d` elements and
dimension `d`, and keeps both through any sequence of calls of `empty`, `identity`,
`set` (inside the matrix), `translate`, `scale`, `rotate`, `setOrthographic`,
`setFrustum`, `setPerspective`; what `add` and `mul` return on such a matrix and
what the static `identity`, `orthographic`, `frustum` and `perspective` return has
`dimension * dimension` elements. -/
theorem elements_length_invariant [Field α] (Math : JSMath α) (d : Nat) (hd : 0 < d)
    (calls : List (Call α)) (hcalls : ∀ call ∈ calls, call.InRange d)
    (right : GLMatrix α) (operand : Operand α)
    (xLeft xRight yDown yUp zNear zFar angle : α) ( aspectRatio : α) :
    ((new d : GLMatrix α).dimension = d ∧ (new d : GLMatrix α).elements.length = d * d) ∧
    ((runCalls Math (new d) calls).receiver.dimension = d ∧
      (runCalls Math (new d) calls).receiver.elements.length = d * d) ∧
    (∀ P, prototype.add (runCalls Math (new d) calls).receiver right = .ok P →
      P.elements.length = P.dimension * P.dimension) ∧
    (∀ P, prototype.mul (runCalls Math (new d) calls).receiver operand = .ok P →
      P.elements.length = P.dimension * P.dimension) ∧
    ((identity d : GLMatrix α).elements.length
      = (identity d : GLMatrix α).dimension * (identity d : GLMatrix α).dimension) ∧
    (∃ P, orthographic xLeft xRight yDown yUp zNear zFar = .ok P ∧
      P.elements.length = P.dimension * P.dimension) ∧
    (∃ P, frustum xLeft xRight yDown yUp zNear zFar = .ok P ∧
      P.elements.length = P.dimension * P.dimension) ∧
    (∃ P, perspective Math angle aspectRatio zNear zFar = .ok P ∧
      P.elements.length = P.dimension * P.dimension) := by
  have hnew : Built d (new d : GLMatrix α) := built_new hd
  have hnew4 : Built 4 (new 4 : GLMatrix α) := built_new (by omega)
  have hrun := runCalls_built Math calls (new d) hnew hcalls
  have shape : ∀ {n : Nat} {P : GLMatrix α}, Built n P →
      P.elements.length = P.dimension * P.dimension := by
    intro n P h
    rw [h.2.1, h.2.2.2]
  refine ⟨⟨hnew.2.1, hnew.2.2.2⟩, ⟨hrun.2.1, hrun.2.2.2⟩, ?_, ?_, shape (built_identity hd),
    ?_, ?_, ?_⟩
  · intro P hP
    by_cases hs : (runCalls Math (new d) calls).receiver.size = right.size
    · obtain ⟨Q, e, bQ, _⟩ := add_built hrun hs
      rw [e] at hP
      cases hP
      exact shape bQ
    · simp [prototype.add, hs] at hP
  · intro P hP
    cases operand with
    | matrix B =>
      by_cases hs : (runCalls Math (new d) calls).receiver.size = B.size
      · obtain ⟨Q, e, bQ, _⟩ := mul_matrix hrun hs
        rw [e] at hP
        cases hP
        exact shape bQ
      · simp [prototype.mul, hs] at hP
    | number v =>
      obtain ⟨Q, e, bQ, _⟩ := mul_number hrun v
      rw [e] at hP
      cases hP
      exact shape bQ
    | other => simp [prototype.mul] at hP
  · obtain ⟨h1, h2⟩ := setOrthographic_ok hnew4 (Nat.le_refl 4)
      xLeft xRight yDown yUp zNear zFar
    exact ⟨_, returned_ok h1, shape h2⟩
  · obtain ⟨h1, h2⟩ := setFrustum_ok hnew4 (Nat.le_refl 4)
      xLeft xRight yDown yUp zNear zFar
    exact ⟨_, returned_ok h1, shape h2⟩
  · unfold perspective prototype.setPerspective
    obtain ⟨h1, h2⟩ := setFrustum_ok hnew4 (Nat.le_refl 4)
      (-(zNear * Math.tan (degreeToRadian Math angle / 2)) * aspectRatio)
      (-(-(zNear * Math.tan (degreeToRadian Math angle / 2)) * aspectRatio))
      (-(zNear * Math.tan (degreeToRadian Math angle / 2)))
      (zNear * Math.tan (degreeToRadian Math angle / 2)) zNear zFar
    exact ⟨_, returned_ok h1, shape h2⟩

theorem elements_length_invariant_witness :
    0 < 4 ∧
    (∀ call ∈ [Call.translate (1 : Rat) 2 3, Call.set 3 0 5, Call.rotate 90 0 0 1,
        Call.setFrustum (-1) 1 (-1) 1 1 3, Call.scale 2 2 2], call.InRange 4) ∧
    (runCalls ⟨fun a => a, fun _ => 0, fun _ => 1, fun _ => 1, 3⟩ (new 4)
        [Call.translate (1 : Rat) 2 3, Call.set 3 0 5, Call.rotate 90 0 0 1,
          Call.setFrustum (-1) 1 (-1) 1 1 3, Call.scale 2 2 2]).receiver.dimension = 4 ∧
    (runCalls ⟨fun a => a, fun _ => 0, fun _ => 1, fun _ => 1, 3⟩ (new 4)
        [Call.translate (1 : Rat) 2 3, Call.set 3 0 5, Call.rotate 90 0 0 1,
          Call.setFrustum (-1) 1 (-1) 1 1 3, Call.scale 2 2 2]).receiver.elements.length
      = 4 * 4 :=
  ⟨by decide, by simp [Call.InRange],
    (elements_length_invariant ⟨fun a => a, fun _ => 0, fun _ => 1, fun _ => 1, 3⟩ 4
      (by decide) _ (by simp [Call.InRange]) (new 4) .other 0 0 0 0 0 0 0 0).2.1⟩

/-- C9: for a matrix `A` built with dimension `d >= 4`, `translate(tx, ty, tz)`
returns, the receiver takes the elements of `T.mul(A)` for `T` the identity with
`(0,3) = tx`, `(1,3) = ty`, `(2,3) = tz`, so that in every column `c` rows 0, 1, 2
become `A(0,c) + tx*A(3,c)`, `A(1,c) + ty*A(3,c)`, `A(2,c) + tz*A(3,c)` and the rows
from 3 on are unchanged; and `identity(4).translate(1,2,3)` is the identity with
column 3 equal to `(1,2,3,1)`. -/
theorem translate_entries [Semiring α] (d : Nat) (A : GLMatrix α) (hA : Built d A)
    (hd : 4 ≤ d) (tx ty tz : α) :
    (∃ P,
      prototype.mul
        (prototype.set (prototype.set (prototype.set (identity d) 0 3 tx) 1 3 ty) 2 3 tz)
        (.matrix A) = .ok P ∧
      prototype.translate A tx ty tz = ⟨{ A with elements := P.elements }, none⟩) ∧
    (∀ c, c < d →
      prototype.get (prototype.translate A tx ty tz).receiver 0 c
        = prototype.get A 0 c + tx * prototype.get A 3 c ∧
      prototype.get (prototype.translate A tx ty tz).receiver 1 c
        = prototype.get A 1 c + ty * prototype.get A 3 c ∧
      prototype.get (prototype.translate A tx ty tz).receiver 2 c
        = prototype.get A 2 c + tz * prototype.get A 3 c ∧
      ∀ r, 3 ≤ r → r < d →
        prototype.get (prototype.translate A tx ty tz).receiver r c
          = prototype.get A r c) ∧
    prototype.translate (identity 4 : GLMatrix α) 1 2 3
      = ⟨⟨4, 16, [1, 0, 0, 0, 0, 1, 0, 0, 0, 0, 1, 0, 1, 2, 3, 1]⟩, none⟩ := by
  refine ⟨?_, fun c hc => translate_get hA hd tx ty tz hc, ?_⟩
  · obtain ⟨P, _, e, hT⟩ := translate_eq hA hd tx ty tz
    exact ⟨P, e, hT⟩
  · have hI : Built 4 (identity 4 : GLMatrix α) := built_identity (by omega)
    obtain ⟨P, bP, _, hT⟩ := translate_eq hI (Nat.le_refl 4) (1 : α) 2 3
    have hN : Built 4
        (⟨4, 16, [1, 0, 0, 0, 0, 1, 0, 0, 0, 0, 1, 0, 1, 2, 3, 1]⟩ : GLMatrix α) :=
      ⟨by omega, rfl, rfl, rfl⟩
    have key : (prototype.translate (identity 4 : GLMatrix α) 1 2 3).receiver
        = ⟨4, 16, [1, 0, 0, 0, 0, 1, 0, 0, 0, 0, 1, 0, 1, 2, 3, 1]⟩ := by
      apply built_ext (by rw [hT]; exact built_withElements hI bP) hN
      intro r c hr hc
      obtain ⟨g0, g1, g2, g3⟩ := translate_get hI (Nat.le_refl 4) (1 : α) 2 3 hc
      have hr4 : r = 0 ∨ r = 1 ∨ r = 2 ∨ r = 3 := by omega
      rcases hr4 with rfl | rfl | rfl | rfl
      · rw [g0, get_identity hr hc, get_identity (by omega) hc]
        interval_cases c <;> simp [prototype.get, jsGet]
      · rw [g1, get_identity hr hc, get_identity (by omega) hc]
        interval_cases c <;> simp [prototype.get, jsGet]
      · rw [g2, get_identity hr hc, get_identity (by omega) hc]
        interval_cases c <;> simp [prototype.get, jsGet]
      · rw [g3 3 (Nat.le_refl 3) hr, get_identity hr hc]
        interval_cases c <;> simp [prototype.get, jsGet]
    rw [hT] at key ⊢
    simp only at key
    rw [key]

theorem translate_entries_witness :
    Built 4 (prototype.set (identity 4 : GLMatrix Int) 3 0 7) ∧ 4 ≤ 4 ∧
    ∀ c, c < 4 →
      prototype.get
          (prototype.translate (prototype.set (identity 4 : GLMatrix Int) 3 0 7)
            10 20 30).receiver 0 c
        = prototype.get (prototype.set (identity 4 : GLMatrix Int) 3 0 7) 0 c
          + 10 * prototype.get (prototype.set (identity 4 : GLMatrix Int) 3 0 7) 3 c ∧
      prototype.get
          (prototype.translate (prototype.set (identity 4 : GLMatrix Int) 3 0 7)
            10 20 30).receiver 1 c
        = prototype.get (prototype.set (identity 4 : GLMatrix Int) 3 0 7) 1 c
          + 20 * prototype.get (prototype.set (identity 4 : GLMatrix Int) 3 0 7) 3 c ∧
      prototype.get
          (prototype.translate (prototype.set (identity 4 : GLMatrix Int) 3 0 7)
            10 20 30).receiver 2 c
        = prototype.get (prototype.set (identity 4 : GLMatrix Int) 3 0 7) 2 c
          + 30 * prototype.get (prototype.set (identity 4 : GLMatrix Int) 3 0 7) 3 c ∧
      ∀ r, 3 ≤ r → r < 4 →
        prototype.get
            (prototype.translate (prototype.set (identity 4 : GLMatrix Int) 3 0 7)
              10 20 30).receiver r c
          = prototype.get (prototype.set (identity 4 : GLMatrix Int) 3 0 7) r c :=
  ⟨by decide, by decide,
    (translate_entries 4 _ (by decide) (by decide) 10 20 30).2.1⟩

/-- C10: for a matrix `A` built with dimension `d >= 3`, `scale(sx, sy, sz)` returns
and multiplies row 0 by `sx`, row 1 by `sy`, row 2 by `sz`, leaving the rows from 3
on unchanged; and `identity(4).scale(sx, sy, sz)` is `diag(sx, sy, sz, 1)`, in
particular `identity(4).scale(2,2,2)` is `diag(2,2,2,1)`. -/
theorem scale_entries [Semiring α] (d : Nat) (A : GLMatrix α) (hA : Built d A)
    (hd : 3 ≤ d) (sx sy sz : α) :
    (prototype.scale A sx sy sz).thrown = none ∧
    (∀ c, c < d →
      prototype.get (prototype.scale A sx sy sz).receiver 0 c = sx * prototype.get A 0 c ∧
      prototype.get (prototype.scale A sx sy sz).receiver 1 c = sy * prototype.get A 1 c ∧
      prototype.get (prototype.scale A sx sy sz).receiver 2 c = sz * prototype.get A 2 c ∧
      ∀ r, 3 ≤ r → r < d →
        prototype.get (prototype.scale A sx sy sz).receiver r c = prototype.get A r c) ∧
    prototype.scale (identity 4 : GLMatrix α) sx sy sz
      = ⟨⟨4, 16, [sx, 0, 0, 0, 0, sy, 0, 0, 0, 0, sz, 0, 0, 0, 0, 1]⟩, none⟩ ∧
    prototype.scale (identity 4 : GLMatrix α) 2 2 2
      = ⟨⟨4, 16, [2, 0, 0, 0, 0, 2, 0, 0, 0, 0, 2, 0, 0, 0, 0, 1]⟩, none⟩ := by
  have diag : ∀ a b c : α, prototype.scale (identity 4 : GLMatrix α) a b c
      = ⟨⟨4, 16, [a, 0, 0, 0, 0, b, 0, 0, 0, 0, c, 0, 0, 0, 0, 1]⟩, none⟩ := by
    intro a b c
    have hI : Built 4 (identity 4 : GLMatrix α) := built_identity (by omega)
    obtain ⟨P, bP, _, hT⟩ := scale_eq hI (show 3 ≤ 4 by omega) a b c
    have hN : Built 4
        (⟨4, 16, [a, 0, 0, 0, 0, b, 0, 0, 0, 0, c, 0, 0, 0, 0, 1]⟩ : GLMatrix α) :=
      ⟨by omega, rfl, rfl, rfl⟩
    have key : (prototype.scale (identity 4 : GLMatrix α) a b c).receiver
        = ⟨4, 16, [a, 0, 0, 0, 0, b, 0, 0, 0, 0, c, 0, 0, 0, 0, 1]⟩ := by
      apply built_ext (by rw [hT]; exact built_withElements hI bP) hN
      intro r k hr hk
      obtain ⟨g0, g1, g2, g3⟩ := scale_get hI (show 3 ≤ 4 by omega) a b c hk
      have hr4 : r = 0 ∨ r = 1 ∨ r = 2 ∨ r = 3 := by omega
      rcases hr4 with rfl | rfl | rfl | rfl
      · rw [g0, get_identity hr hk]
        interval_cases k <;> simp [prototype.get, jsGet]
      · rw [g1, get_identity hr hk]
        interval_cases k <;> simp [prototype.get, jsGet]
      · rw [g2, get_identity hr hk]
        interval_cases k <;> simp [prototype.get, jsGet]
      · rw [g3 3 (Nat.le_refl 3) hr, get_identity hr hk]
        interval_cases k <;> simp [prototype.get, jsGet]
    rw [hT] at key ⊢
    simp only at key
    rw [key]
  refine ⟨?_, fun c hc => scale_get hA hd sx sy sz hc, diag sx sy sz, diag 2 2 2⟩
  obtain ⟨P, _, _, hT⟩ := scale_eq hA hd sx sy sz
  rw [hT]

theorem scale_entries_witness :
    Built 3 (prototype.set (identity 3 : GLMatrix Int) 0 2 7) ∧ 3 ≤ 3 ∧
    (prototype.scale (prototype.set (identity 3 : GLMatrix Int) 0 2 7) 2 3 5).thrown = none ∧
    ∀ c, c < 3 →
      prototype.get
          (prototype.scale (prototype.set (identity 3 : GLMatrix Int) 0 2 7) 2 3 5).receiver
          0 c
        = 2 * prototype.get (prototype.set (identity 3 : GLMatrix Int) 0 2 7) 0 c ∧
      prototype.get
          (prototype.scale (prototype.set (identity 3 : GLMatrix Int) 0 2 7) 2 3 5).receiver
          1 c
        = 3 * prototype.get (prototype.set (identity 3 : GLMatrix Int) 0 2 7) 1 c ∧
      prototype.get
          (prototype.scale (prototype.set (identity 3 : GLMatrix Int) 0 2 7) 2 3 5).receiver
          2 c
        = 5 * prototype.get (prototype.set (identity 3 : GLMatrix Int) 0 2 7) 2 c ∧
      ∀ r, 3 ≤ r → r < 3 →
        prototype.get
            (prototype.scale (prototype.set (identity 3 : GLMatrix Int) 0 2 7) 2 3 5).receiver
            r c
          = prototype.get (prototype.set (identity 3 : GLMatrix Int) 0 2 7) r c :=
  ⟨by decide, by decide,
    (scale_entries 3 _ (by decide) (by decide) 2 3 5).1,
    (scale_entries 3 _ (by decide) (by decide) 2 3 5).2.1⟩

/-- C11: for a matrix `A` built with dimension 4, `A.translate(tx,ty,tz)` followed by
`scale(sx,sy,sz)` returns and leaves the elements of `S.mul(T.mul(A))`, where
`T = identity(4).translate(tx,ty,tz)` and `S = identity(4).scale(sx,sy,sz)`; started
from `identity(4)`, the resulting matrix sends the point `(0,0,0,1)` to
`(sx*tx, sy*ty, sz*tz, 1)`, which is `(2,4,6,1)` for `translate(1,2,3).scale(2,2,2)`. -/
theorem translate_then_scale [Semiring α] (A : GLMatrix α) (hA : Built 4 A)
    (tx ty tz sx sy sz : α) :
    (∃ TA P,
      prototype.mul (prototype.translate (identity 4) tx ty tz).receiver (.matrix A)
        = .ok TA ∧
      prototype.mul (prototype.scale (identity 4) sx sy sz).receiver (.matrix TA)
        = .ok P ∧
      (prototype.translate A tx ty tz).thrown = none ∧
      (prototype.scale (prototype.translate A tx ty tz).receiver sx sy sz).thrown = none ∧
      (prototype.scale (prototype.translate A tx ty tz).receiver sx sy sz).receiver.elements
        = P.elements) ∧
    transformPoint
        (prototype.scale (prototype.translate (identity 4 : GLMatrix α) tx ty tz).receiver
          sx sy sz).receiver [0, 0, 0, 1]
      = [sx * tx, sy * ty, sz * tz, 1] ∧
    transformPoint
        (prototype.scale (prototype.translate (identity 4 : GLMatrix α) 1 2 3).receiver
          2 2 2).receiver [0, 0, 0, 1]
      = [2, 4, 6, 1] := by
  have hI : Built 4 (identity 4 : GLMatrix α) := built_identity (by omega)
  have point : ∀ a b c x y z : α,
      transformPoint
          (prototype.scale (prototype.translate (identity 4 : GLMatrix α) a b c).receiver
            x y z).receiver [0, 0, 0, 1]
        = [x * a, y * b, z * c, 1] := by
    intro a b c x y z
    obtain ⟨Q, bQ, _, hQ⟩ := translate_eq hI (Nat.le_refl 4) a b c
    have hA1 : Built 4 (prototype.translate (identity 4 : GLMatrix α) a b c).receiver := by
      rw [hQ]; exact built_withElements hI bQ
    obtain ⟨R, bR, _, hR⟩ := scale_eq hA1 (show 3 ≤ 4 by omega) x y z
    have hA2 : Built 4
        (prototype.scale (prototype.translate (identity 4 : GLMatrix α) a b c).receiver
          x y z).receiver := by
      rw [hR]; exact built_withElements hA1 bR
    obtain ⟨s0, s1, s2, s3⟩ := scale_get hA1 (show 3 ≤ 4 by omega) x y z (show 3 < 4 by omega)
    obtain ⟨t0, t1, t2, t3⟩ := translate_get hI (Nat.le_refl 4) a b c (show 3 < 4 by omega)
    have hrange : List.range 4 = [0, 1, 2, 3] := rfl
    unfold transformPoint
    rw [hA2.2.1, hrange]
    simp only [List.map_cons, List.map_nil, List.sum_cons, List.sum_nil,
      List.getD_cons_zero, List.getD_cons_succ, mul_zero, mul_one, zero_add, add_zero]
    rw [s0, s1, s2, s3 3 (Nat.le_refl 3) (by omega), t0, t1, t2,
      t3 3 (Nat.le_refl 3) (by omega),
      get_identity (show 0 < 4 by omega) (show 3 < 4 by omega),
      get_identity (show 1 < 4 by omega) (show 3 < 4 by omega),
      get_identity (show 2 < 4 by omega) (show 3 < 4 by omega),
      get_identity (show 3 < 4 by omega) (show 3 < 4 by omega)]
    simp
  refine ⟨?_, point tx ty tz sx sy sz, ?_⟩
  · obtain ⟨TA, bTA, eTA, hTr⟩ := translate_eq hA (Nat.le_refl 4) tx ty tz
    have hA1 : (prototype.translate A tx ty tz).receiver = TA := by
      rw [hTr]; exact withElements_eq hA bTA
    obtain ⟨P, bP, eP, hSc⟩ := scale_eq bTA (show 3 ≤ 4 by omega) sx sy sz
    refine ⟨TA, P, ?_, ?_, ?_, ?_, ?_⟩
    · rw [translate_identity (Nat.le_refl 4) tx ty tz]; exact eTA
    · rw [scale_identity (show 3 ≤ 4 by omega) sx sy sz]; exact eP
    · rw [hTr]
    · rw [hA1, hSc]
    · rw [hA1, hSc]
  · rw [point 1 2 3 2 2 2]
    norm_num

theorem translate_then_scale_witness :
    Built 4 (prototype.set (identity 4 : GLMatrix Int) 3 0 7) ∧
    ∃ TA P,
      prototype.mul (prototype.translate (identity 4) 5 6 7).receiver
        (.matrix (prototype.set (identity 4 : GLMatrix Int) 3 0 7)) = .ok TA ∧
      prototype.mul (prototype.scale (identity 4) 2 3 4).receiver (.matrix TA) = .ok P ∧
      (prototype.translate (prototype.set (identity 4 : GLMatrix Int) 3 0 7) 5 6 7).thrown
        = none ∧
      (prototype.scale
        (prototype.translate (prototype.set (identity 4 : GLMatrix Int) 3 0 7)
          5 6 7).receiver 2 3 4).thrown = none ∧
      (prototype.scale
        (prototype.translate (prototype.set (identity 4 : GLMatrix Int) 3 0 7)
          5 6 7).receiver 2 3 4).receiver.elements = P.elements :=
  ⟨by decide,
    (translate_then_scale (prototype.set (identity 4 : GLMatrix Int) 3 0 7) (by decide)
      5 6 7 2 3 4).1⟩

/-- C12: over the real numbers, for a matrix `M` built with dimension `d >= 3` and an
axis that is not the zero vector, `rotate(0, ax, ay, az)` returns and leaves `M`
exactly as it was; in particular `identity(4).rotate(0, 0,0,1)` is `identity(4)`. -/
theorem rotate_zero_angle (d : Nat) (M : GLMatrix Real) (hM : Built d M) (hd : 3 ≤ d)
    (ax ay az : Real) (haxis : ¬(ax = 0 ∧ ay = 0 ∧ az = 0)) :
    prototype.rotate ⟨Real.sqrt, Real.cos, Real.sin, Real.tan, Real.pi⟩ M 0 ax ay az
      = ⟨M, none⟩ ∧
    prototype.rotate ⟨Real.sqrt, Real.cos, Real.sin, Real.tan, Real.pi⟩
        (identity 4 : GLMatrix Real) 0 0 0 1
      = ⟨identity 4, none⟩ := by
  have _ := haxis
  constructor
  · exact rotate_of_sin_zero _ hM hd 0 ax ay az (by simp [degreeToRadian])
      (by simp [degreeToRadian])
  · exact rotate_of_sin_zero _ (built_identity (by omega)) (by omega) 0 0 0 1
      (by simp [degreeToRadian]) (by simp [degreeToRadian])

theorem rotate_zero_angle_witness :
    Built 3 (prototype.set (identity 3 : GLMatrix Real) 0 2 7) ∧ 3 ≤ 3 ∧
    ¬((1 : Real) = 0 ∧ (2 : Real) = 0 ∧ (2 : Real) = 0) ∧
    prototype.rotate ⟨Real.sqrt, Real.cos, Real.sin, Real.tan, Real.pi⟩
        (prototype.set (identity 3 : GLMatrix Real) 0 2 7) 0 1 2 2
      = ⟨prototype.set (identity 3 : GLMatrix Real) 0 2 7, none⟩ :=
  ⟨built_set (built_identity (by decide)) (by decide) (by decide) 7, by decide,
    by norm_num,
    (rotate_zero_angle 3 _
      (built_set (built_identity (by decide)) (by decide) (by decide) 7) (by decide)
      1 2 2 (by norm_num)).1⟩

/-- C13: for a matrix `M` built with dimension `d >= 4`, whatever its contents, and
bounds with `xLeft != xRight`, `yDown != yUp`, `zNear != zFar`, `setOrthographic`
returns and leaves `(0,0) = 1/xHalf`, `(1,1) = 1/yHalf`, `(2,2) = 1/zHalf`,
`(0,3) = -xLeft/xHalf - 1`, `(1,3) = -yDown/yHalf - 1`, `(2,3) = -zNear/zHalf - 1`
and every other entry as in `identity(d)`; and `orthographic(-1,1,-1,1,-1,1)` returns
`identity(4)`. -/
theorem setOrthographic_entries [Field α] [CharZero α] (d : Nat) (M : GLMatrix α)
    (hM : Built d M) (hd : 4 ≤ d) (xLeft xRight yDown yUp zNear zFar : α)
    (hx : xLeft ≠ xRight) (hy : yDown ≠ yUp) (hz : zNear ≠ zFar) :
    (prototype.setOrthographic M xLeft xRight yDown yUp zNear zFar).thrown = none ∧
    prototype.get (prototype.setOrthographic M xLeft xRight yDown yUp zNear zFar).receiver
        0 0 = 1 / ((xRight - xLeft) / 2) ∧
    prototype.get (prototype.setOrthographic M xLeft xRight yDown yUp zNear zFar).receiver
        1 1 = 1 / ((yUp - yDown) / 2) ∧
    prototype.get (prototype.setOrthographic M xLeft xRight yDown yUp zNear zFar).receiver
        2 2 = 1 / ((zFar - zNear) / 2) ∧
    prototype.get (prototype.setOrthographic M xLeft xRight yDown yUp zNear zFar).receiver
        0 3 = -xLeft / ((xRight - xLeft) / 2) - 1 ∧
    prototype.get (prototype.setOrthographic M xLeft xRight yDown yUp zNear zFar).receiver
        1 3 = -yDown / ((yUp - yDown) / 2) - 1 ∧
    prototype.get (prototype.setOrthographic M xLeft xRight yDown yUp zNear zFar).receiver
        2 3 = -zNear / ((zFar - zNear) / 2) - 1 ∧
    (∀ r c, r < d → c < d →
      ¬(r = 0 ∧ c = 0) → ¬(r = 1 ∧ c = 1) → ¬(r = 2 ∧ c = 2) →
      ¬(r = 0 ∧ c = 3) → ¬(r = 1 ∧ c = 3) → ¬(r = 2 ∧ c = 3) →
      prototype.get
          (prototype.setOrthographic M xLeft xRight yDown yUp zNear zFar).receiver r c
        = prototype.get (identity d : GLMatrix α) r c) ∧
    orthographic (-1 : α) 1 (-1) 1 (-1) 1 = .ok (identity 4) := by
  have _ := hx
  have _ := hy
  have _ := hz
  refine ⟨(setOrthographic_ok hM hd _ _ _ _ _ _).1, ?_, ?_, ?_, ?_, ?_, ?_, ?_, ?_⟩
  · rw [setOrthographic_get hM hd _ _ _ _ _ _ (show 0 < d by omega) (show 0 < d by omega)]
    simp
  · rw [setOrthographic_get hM hd _ _ _ _ _ _ (show 1 < d by omega) (show 1 < d by omega)]
    simp
  · rw [setOrthographic_get hM hd _ _ _ _ _ _ (show 2 < d by omega) (show 2 < d by omega)]
    simp
  · rw [setOrthographic_get hM hd _ _ _ _ _ _ (show 0 < d by omega) (show 3 < d by omega)]
    simp
  · rw [setOrthographic_get hM hd _ _ _ _ _ _ (show 1 < d by omega) (show 3 < d by omega)]
    simp
  · rw [setOrthographic_get hM hd _ _ _ _ _ _ (show 2 < d by omega) (show 3 < d by omega)]
    simp
  · intro r c hr hc n00 n11 n22 n03 n13 n23
    rw [setOrthographic_get hM hd _ _ _ _ _ _ hr hc, get_identity hr hc,
      if_neg n23, if_neg n13, if_neg n03, if_neg n22, if_neg n11, if_neg n00]
  · have hnew : Built 4 (new 4 : GLMatrix α) := built_new (by omega)
    have key : (prototype.setOrthographic (new 4 : GLMatrix α) (-1) 1 (-1) 1 (-1) 1).receiver
        = identity 4 := by
      apply built_ext (setOrthographic_ok hnew (Nat.le_refl 4) _ _ _ _ _ _).2
        (built_identity (by omega))
      intro r c hr hc
      rw [setOrthographic_get hnew (Nat.le_refl 4) _ _ _ _ _ _ hr hc, get_identity hr hc]
      interval_cases r <;> interval_cases c <;> norm_num
    rw [orthographic_eq, key]

theorem setOrthographic_entries_witness :
    Built 4 (prototype.set (identity 4 : GLMatrix Rat) 3 0 7) ∧ 4 ≤ 4 ∧
    (0 : Rat) ≠ 4 ∧ (-1 : Rat) ≠ 1 ∧ (1 : Rat) ≠ 3 ∧
    prototype.get
      (prototype.setOrthographic (prototype.set (identity 4 : GLMatrix Rat) 3 0 7)
        0 4 (-1) 1 1 3).receiver 0 0 = 1 / ((4 - 0) / 2) :=
  ⟨built_set (built_identity (by decide)) (by decide) (by decide) 7, by decide,
    by norm_num, by norm_num, by norm_num,
    (setOrthographic_entries 4 _
      (built_set (built_identity (by decide)) (by decide) (by decide) 7) (by decide)
      0 4 (-1) 1 1 3 (by norm_num) (by norm_num) (by norm_num)).2.1⟩

/-- C18, for exact arithmetic (a field of characteristic 0): for `l != r`, `b != t`,
`n != f`, the matrix `orthographic(l, r, b, t, n, f)`
sends the point `(l, b, n, 1)` to `(-1, -1, -1, 1)` and `(r, t, f, 1)` to
`(1, 1, 1, 1)`. -/
theorem orthographic_maps_box [Field α] [CharZero α] (l r b t n f : α)
    (hx : l ≠ r) (hy : b ≠ t) (hz : n ≠ f) :
    ∃ O, orthographic l r b t n f = .ok O ∧
      transformPoint O [l, b, n, 1] = [-1, -1, -1, 1] ∧
      transformPoint O [r, t, f, 1] = [1, 1, 1, 1] := by
  have hnew : Built 4 (new 4 : GLMatrix α) := built_new (by omega)
  have hb := (setOrthographic_ok hnew (Nat.le_refl 4) l r b t n f).2
  have hg : ∀ i j, i < 4 → j < 4 → _ :=
    fun i j hi hj => setOrthographic_get hnew (Nat.le_refl 4) l r b t n f hi hj
  have hrange : List.range 4 = [0, 1, 2, 3] := rfl
  have hx2 : r - l ≠ 0 := sub_ne_zero.mpr (Ne.symm hx)
  have hy2 : t - b ≠ 0 := sub_ne_zero.mpr (Ne.symm hy)
  have hz2 : f - n ≠ 0 := sub_ne_zero.mpr (Ne.symm hz)
  refine ⟨_, orthographic_eq l r b t n f, ?_, ?_⟩
  · unfold transformPoint
    rw [hb.2.1, hrange]
    simp only [List.map_cons, List.map_nil, List.sum_cons, List.sum_nil,
      hg 0 0 (by omega) (by omega), hg 0 1 (by omega) (by omega),
      hg 0 2 (by omega) (by omega), hg 0 3 (by omega) (by omega),
      hg 1 0 (by omega) (by omega), hg 1 1 (by omega) (by omega),
      hg 1 2 (by omega) (by omega), hg 1 3 (by omega) (by omega),
      hg 2 0 (by omega) (by omega), hg 2 1 (by omega) (by omega),
      hg 2 2 (by omega) (by omega), hg 2 3 (by omega) (by omega),
      hg 3 0 (by omega) (by omega), hg 3 1 (by omega) (by omega),
      hg 3 2 (by omega) (by omega), hg 3 3 (by omega) (by omega)]
    norm_num
    refine ⟨?_, ?_, ?_⟩ <;> field_simp <;> ring
  · unfold transformPoint
    rw [hb.2.1, hrange]
    simp only [List.map_cons, List.map_nil, List.sum_cons, List.sum_nil,
      hg 0 0 (by omega) (by omega), hg 0 1 (by omega) (by omega),
      hg 0 2 (by omega) (by omega), hg 0 3 (by omega) (by omega),
      hg 1 0 (by omega) (by omega), hg 1 1 (by omega) (by omega),
      hg 1 2 (by omega) (by omega), hg 1 3 (by omega) (by omega),
      hg 2 0 (by omega) (by omega), hg 2 1 (by omega) (by omega),
      hg 2 2 (by omega) (by omega), hg 2 3 (by omega) (by omega),
      hg 3 0 (by omega) (by omega), hg 3 1 (by omega) (by omega),
      hg 3 2 (by omega) (by omega), hg 3 3 (by omega) (by omega)]
    norm_num
    refine ⟨?_, ?_, ?_⟩ <;> field_simp <;> ring

theorem orthographic_maps_box_witness :
    (0 : Rat) ≠ 4 ∧ (-1 : Rat) ≠ 1 ∧ (1 : Rat) ≠ 3 ∧
    ∃ O, orthographic (0 : Rat) 4 (-1) 1 1 3 = .ok O ∧
      transformPoint O [0, -1, 1, 1] = [-1, -1, -1, 1] ∧
      transformPoint O [4, 1, 3, 1] = [1, 1, 1, 1] :=
  ⟨by norm_num, by norm_num, by norm_num,
    orthographic_maps_box 0 4 (-1) 1 1 3 (by norm_num) (by norm_num) (by norm_num)⟩

/-- C14: for a matrix `M` built with dimension `d >= 4`, whatever its contents, and
bounds with `xLeft != xRight`, `yDown != yUp`, `zNear != zFar`, `setFrustum` returns
and leaves `(0,0) = zNear/xHalf`, `(1,1) = zNear/yHalf`, `(0,2) = -xLeft/xHalf - 1`,
`(1,2) = -yDown/yHalf - 1`, `(2,2) = zNear/zHalf + 1`, `(2,3) = -(zNear*zFar/zHalf)`,
`(3,2) = 1`, `(3,3) = 0` and `0` everywhere else; `frustum` with the same arguments
returns the 4x4 matrix with these entries. -/
theorem setFrustum_entries [Field α] (d : Nat) (M : GLMatrix α)
    (hM : Built d M) (hd : 4 ≤ d) (xLeft xRight yDown yUp zNear zFar : α)
    (hx : xLeft ≠ xRight) (hy : yDown ≠ yUp) (hz : zNear ≠ zFar) :
    (prototype.setFrustum M xLeft xRight yDown yUp zNear zFar).thrown = none ∧
    prototype.get (prototype.setFrustum M xLeft xRight yDown yUp zNear zFar).receiver
        0 0 = zNear / ((xRight - xLeft) / 2) ∧
    prototype.get (prototype.setFrustum M xLeft xRight yDown yUp zNear zFar).receiver
        1 1 = zNear / ((yUp - yDown) / 2) ∧
    prototype.get (prototype.setFrustum M xLeft xRight yDown yUp zNear zFar).receiver
        0 2 = -xLeft / ((xRight - xLeft) / 2) - 1 ∧
    prototype.get (prototype.setFrustum M xLeft xRight yDown yUp zNear zFar).receiver
        1 2 = -yDown / ((yUp - yDown) / 2) - 1 ∧
    prototype.get (prototype.setFrustum M xLeft xRight yDown yUp zNear zFar).receiver
        2 2 = zNear / ((zFar - zNear) / 2) + 1 ∧
    prototype.get (prototype.setFrustum M xLeft xRight yDown yUp zNear zFar).receiver
        2 3 = -(zNear * zFar / ((zFar - zNear) / 2)) ∧
    prototype.get (prototype.setFrustum M xLeft xRight yDown yUp zNear zFar).receiver
        3 2 = 1 ∧
    prototype.get (prototype.setFrustum M xLeft xRight yDown yUp zNear zFar).receiver
        3 3 = 0 ∧
    (∀ r c, r < d → c < d →
      ¬(r = 0 ∧ c = 0) → ¬(r = 1 ∧ c = 1) → ¬(r = 0 ∧ c = 2) → ¬(r = 1 ∧ c = 2) →
      ¬(r = 2 ∧ c = 2) → ¬(r = 2 ∧ c = 3) → ¬(r = 3 ∧ c = 2) → ¬(r = 3 ∧ c = 3) →
      prototype.get (prototype.setFrustum M xLeft xRight yDown yUp zNear zFar).receiver r c
        = 0) ∧
    frustum xLeft xRight yDown yUp zNear zFar
      = .ok ⟨4, 16,
          [zNear / ((xRight - xLeft) / 2), 0, 0, 0,
           0, zNear / ((yUp - yDown) / 2), 0, 0,
           -xLeft / ((xRight - xLeft) / 2) - 1, -yDown / ((yUp - yDown) / 2) - 1,
             zNear / ((zFar - zNear) / 2) + 1, 1,
           0, 0, -(zNear * zFar / ((zFar - zNear) / 2)), 0]⟩ := by
  have _ := hx
  have _ := hy
  have _ := hz
  refine ⟨(setFrustum_ok hM hd _ _ _ _ _ _).1, ?_, ?_, ?_, ?_, ?_, ?_, ?_, ?_, ?_, ?_⟩
  · rw [setFrustum_get hM hd _ _ _ _ _ _ (show 0 < d by omega) (show 0 < d by omega)]
    simp
  · rw [setFrustum_get hM hd _ _ _ _ _ _ (show 1 < d by omega) (show 1 < d by omega)]
    simp
  · rw [setFrustum_get hM hd _ _ _ _ _ _ (show 0 < d by omega) (show 2 < d by omega)]
    simp
  · rw [setFrustum_get hM hd _ _ _ _ _ _ (show 1 < d by omega) (show 2 < d by omega)]
    simp
  · rw [setFrustum_get hM hd _ _ _ _ _ _ (show 2 < d by omega) (show 2 < d by omega)]
    simp
  · rw [setFrustum_get hM hd _ _ _ _ _ _ (show 2 < d by omega) (show 3 < d by omega)]
    simp
  · rw [setFrustum_get hM hd _ _ _ _ _ _ (show 3 < d by omega) (show 2 < d by omega)]
    simp
  · rw [setFrustum_get hM hd _ _ _ _ _ _ (show 3 < d by omega) (show 3 < d by omega)]
    simp
  · intro r c hr hc n00 n11 n02 n12 n22 n23 n32 n33
    rw [setFrustum_get hM hd _ _ _ _ _ _ hr hc,
      if_neg n33, if_neg n32, if_neg n23, if_neg n22, if_neg n12, if_neg n02,
      if_neg n11, if_neg n00]
  · have hnew : Built 4 (new 4 : GLMatrix α) := built_new (by omega)
    have key : (prototype.setFrustum (new 4 : GLMatrix α)
          xLeft xRight yDown yUp zNear zFar).receiver
        = ⟨4, 16,
          [zNear / ((xRight - xLeft) / 2), 0, 0, 0,
           0, zNear / ((yUp - yDown) / 2), 0, 0,
           -xLeft / ((xRight - xLeft) / 2) - 1, -yDown / ((yUp - yDown) / 2) - 1,
             zNear / ((zFar - zNear) / 2) + 1, 1,
           0, 0, -(zNear * zFar / ((zFar - zNear) / 2)), 0]⟩ := by
      have hN : Built 4 (⟨4, 16,
          [zNear / ((xRight - xLeft) / 2), 0, 0, 0,
           0, zNear / ((yUp - yDown) / 2), 0, 0,
           -xLeft / ((xRight - xLeft) / 2) - 1, -yDown / ((yUp - yDown) / 2) - 1,
             zNear / ((zFar - zNear) / 2) + 1, 1,
           0, 0, -(zNear * zFar / ((zFar - zNear) / 2)), 0]⟩ : GLMatrix α) :=
        ⟨by omega, rfl, rfl, rfl⟩
      apply built_ext (setFrustum_ok hnew (Nat.le_refl 4) _ _ _ _ _ _).2 hN
      intro r c hr hc
      rw [setFrustum_get hnew (Nat.le_refl 4) _ _ _ _ _ _ hr hc]
      interval_cases r <;> interval_cases c <;> simp [prototype.get, jsGet]
    rw [frustum_eq, key]

theorem setFrustum_entries_witness :
    Built 5 (identity 5 : GLMatrix Rat) ∧ 4 ≤ 5 ∧
    (0 : Rat) ≠ 4 ∧ (-1 : Rat) ≠ 1 ∧ (1 : Rat) ≠ 3 ∧
    frustum (0 : Rat) 4 (-1) 1 1 3
      = .ok ⟨4, 16,
          [1 / ((4 - 0) / 2), 0, 0, 0,
           0, 1 / ((1 - -1) / 2), 0, 0,
           -0 / ((4 - 0) / 2) - 1, - -1 / ((1 - -1) / 2) - 1, 1 / ((3 - 1) / 2) + 1, 1,
           0, 0, -(1 * 3 / ((3 - 1) / 2)), 0]⟩ :=
  ⟨built_identity (by decide), by decide, by norm_num, by norm_num, by norm_num,
    (setFrustum_entries 5 (identity 5) (built_identity (by decide)) (by decide)
      0 4 (-1) 1 1 3 (by norm_num) (by norm_num) (by norm_num)).2.2.2.2.2.2.2.2.2.2⟩

/-- C15, for exact arithmetic: over the real numbers, for a matrix `M` built with
dimension `d >= 3`, every angle in degrees and every axis that is not the zero vector, `rotate` returns and
leaves the elements of `R.mul(M)`, where `R` is the `d x d` matrix
`I + sin(t)*K + (1 - cos(t))*K*K` of the specification for `t = angle*pi/180` and the
axis divided by its length; in particular `identity(3).rotate(angle, 0,0,1)` has rows
`(cos t, -sin t, 0)`, `(sin t, cos t, 0)`, `(0, 0, 1)`. -/
theorem rotate_rodrigues (d : Nat) (M : GLMatrix Real) (hM : Built d M) (hd : 3 ≤ d)
    (angle ax ay az : Real) (haxis : ¬(ax = 0 ∧ ay = 0 ∧ az = 0)) :
    (∃ R P, Built d R ∧
      (∀ r k, r < d → k < d →
        prototype.get R r k
          = rodriguesSpec d (Real.sin (angle * Real.pi / 180))
              (Real.cos (angle * Real.pi / 180))
              (ax / Real.sqrt (ax * ax + ay * ay + az * az))
              (ay / Real.sqrt (ax * ax + ay * ay + az * az))
              (az / Real.sqrt (ax * ax + ay * ay + az * az)) r k) ∧
      prototype.mul R (.matrix M) = .ok P ∧
      prototype.rotate ⟨Real.sqrt, Real.cos, Real.sin, Real.tan, Real.pi⟩ M angle ax ay az
        = ⟨{ M with elements := P.elements }, none⟩) ∧
    prototype.rotate ⟨Real.sqrt, Real.cos, Real.sin, Real.tan, Real.pi⟩
        (identity 3 : GLMatrix Real) angle 0 0 1
      = ⟨⟨3, 9,
          [Real.cos (angle * Real.pi / 180), Real.sin (angle * Real.pi / 180), 0,
           -Real.sin (angle * Real.pi / 180), Real.cos (angle * Real.pi / 180), 0,
           0, 0, 1]⟩, none⟩ := by
  have _ := haxis
  refine ⟨rotate_eq_mul ⟨Real.sqrt, Real.cos, Real.sin, Real.tan, Real.pi⟩ hM hd
    angle ax ay az, ?_⟩
  have hI : Built 3 (identity 3 : GLMatrix Real) := built_identity (by omega)
  obtain ⟨h1, h2, h3⟩ := rotate_get ⟨Real.sqrt, Real.cos, Real.sin, Real.tan, Real.pi⟩ hI
    (Nat.le_refl 3) angle 0 0 1
  have hN : Built 3 (⟨3, 9,
      [Real.cos (angle * Real.pi / 180), Real.sin (angle * Real.pi / 180), 0,
       -Real.sin (angle * Real.pi / 180), Real.cos (angle * Real.pi / 180), 0,
       0, 0, 1]⟩ : GLMatrix Real) := ⟨by omega, rfl, rfl, rfl⟩
  have hrec : (prototype.rotate ⟨Real.sqrt, Real.cos, Real.sin, Real.tan, Real.pi⟩
      (identity 3 : GLMatrix Real) angle 0 0 1).receiver
        = ⟨3, 9,
          [Real.cos (angle * Real.pi / 180), Real.sin (angle * Real.pi / 180), 0,
           -Real.sin (angle * Real.pi / 180), Real.cos (angle * Real.pi / 180), 0,
           0, 0, 1]⟩ := by
    apply built_ext h2 hN
    intro r c hr hc
    have hcol : ∀ k ∈ Finset.range 3,
        rodriguesSpec 3
            (Real.sin (degreeToRadian ⟨Real.sqrt, Real.cos, Real.sin, Real.tan, Real.pi⟩
              angle))
            (Real.cos (degreeToRadian ⟨Real.sqrt, Real.cos, Real.sin, Real.tan, Real.pi⟩
              angle))
            (0 / Real.sqrt (0 * 0 + 0 * 0 + 1 * 1)) (0 / Real.sqrt (0 * 0 + 0 * 0 + 1 * 1))
            (1 / Real.sqrt (0 * 0 + 0 * 0 + 1 * 1)) r k
          * prototype.get (identity 3 : GLMatrix Real) k c
        = if k = c then
            rodriguesSpec 3
              (Real.sin (degreeToRadian ⟨Real.sqrt, Real.cos, Real.sin, Real.tan, Real.pi⟩
                angle))
              (Real.cos (degreeToRadian ⟨Real.sqrt, Real.cos, Real.sin, Real.tan, Real.pi⟩
                angle))
              (0 / Real.sqrt (0 * 0 + 0 * 0 + 1 * 1))
              (0 / Real.sqrt (0 * 0 + 0 * 0 + 1 * 1))
              (1 / Real.sqrt (0 * 0 + 0 * 0 + 1 * 1)) r k
          else 0 := by
      intro k hk
      rw [get_identity (Finset.mem_range.mp hk) hc]
      split <;> simp
    rw [h3 r c hr hc, Finset.sum_congr rfl hcol, Finset.sum_ite_eq',
      if_pos (Finset.mem_range.mpr hc)]
    interval_cases r <;> interval_cases c <;>
      simp [rodriguesSpec, skewSpec, Finset.sum_range_succ, prototype.get, jsGet,
        degreeToRadian]
  cases hout : prototype.rotate ⟨Real.sqrt, Real.cos, Real.sin, Real.tan, Real.pi⟩
      (identity 3 : GLMatrix Real) angle 0 0 1 with
  | mk receiver thrown =>
    rw [hout] at h1 hrec
    simp only at h1 hrec
    rw [h1, hrec]

theorem rotate_rodrigues_witness :
    Built 3 (prototype.set (identity 3 : GLMatrix Real) 0 2 7) ∧ 3 ≤ 3 ∧
    ¬((1 : Real) = 0 ∧ (2 : Real) = 0 ∧ (2 : Real) = 0) ∧
    ∃ R P, Built 3 R ∧
      (∀ r k, r < 3 → k < 3 →
        prototype.get R r k
          = rodriguesSpec 3 (Real.sin (90 * Real.pi / 180)) (Real.cos (90 * Real.pi / 180))
              (1 / Real.sqrt (1 * 1 + 2 * 2 + 2 * 2))
              (2 / Real.sqrt (1 * 1 + 2 * 2 + 2 * 2))
              (2 / Real.sqrt (1 * 1 + 2 * 2 + 2 * 2)) r k) ∧
      prototype.mul R (.matrix (prototype.set (identity 3 : GLMatrix Real) 0 2 7)) = .ok P ∧
      prototype.rotate ⟨Real.sqrt, Real.cos, Real.sin, Real.tan, Real.pi⟩
          (prototype.set (identity 3 : GLMatrix Real) 0 2 7) 90 1 2 2
        = ⟨{ prototype.set (identity 3 : GLMatrix Real) 0 2 7 with
              elements := P.elements }, none⟩ :=
  ⟨built_set (built_identity (by decide)) (by decide) (by decide) 7, by decide,
    by norm_num,
    (rotate_rodrigues 3 _
      (built_set (built_identity (by decide)) (by decide) (by decide) 7) (by decide)
      90 1 2 2 (by norm_num)).1⟩

/-- C16, for exact arithmetic (a field of characteristic 0): for `l != r`, `b != t`,
`n != f`, the matrix `frustum(l, r, b, t, n, f)` sends
`(l, b, n, 1)` to `(-n, -n, -n, n)`, `(r, t, n, 1)` to `(n, n, -n, n)` and every
`(x, y, f, 1)` to a point with third and fourth component `f`; so for `n != 0` and
`f != 0`, after division by the fourth component, the near corners go to
`(-1, -1, -1)` and `(1, 1, -1)` and every point of the far plane has depth `1`. -/
theorem frustum_maps_volume [Field α] [CharZero α] (l r b t n f : α)
    (hx : l ≠ r) (hy : b ≠ t) (hz : n ≠ f) :
    ∃ F, frustum l r b t n f = .ok F ∧
      transformPoint F [l, b, n, 1] = [-n, -n, -n, n] ∧
      transformPoint F [r, t, n, 1] = [n, n, -n, n] ∧
      (∀ x y, ∃ p q, transformPoint F [x, y, f, 1] = [p, q, f, f]) ∧
      (n ≠ 0 → perspectiveDivide (transformPoint F [l, b, n, 1]) = [-1, -1, -1]) ∧
      (n ≠ 0 → perspectiveDivide (transformPoint F [r, t, n, 1]) = [1, 1, -1]) ∧
      (f ≠ 0 → ∀ x y, ∃ p q,
        perspectiveDivide (transformPoint F [x, y, f, 1]) = [p, q, 1]) := by
  have hnew : Built 4 (new 4 : GLMatrix α) := built_new (by omega)
  have hb := (setFrustum_ok hnew (Nat.le_refl 4) l r b t n f).2
  have hg : ∀ i j, i < 4 → j < 4 → _ :=
    fun i j hi hj => setFrustum_get hnew (Nat.le_refl 4) l r b t n f hi hj
  have hrange : List.range 4 = [0, 1, 2, 3] := rfl
  have hx2 : r - l ≠ 0 := sub_ne_zero.mpr (Ne.symm hx)
  have hy2 : t - b ≠ 0 := sub_ne_zero.mpr (Ne.symm hy)
  have hz2 : f - n ≠ 0 := sub_ne_zero.mpr (Ne.symm hz)
  have apply : ∀ v0 v1 v2 v3 : α,
      transformPoint (prototype.setFrustum (new 4 : GLMatrix α) l r b t n f).receiver
          [v0, v1, v2, v3]
        = [n / ((r - l) / 2) * v0 + (-l / ((r - l) / 2) - 1) * v2,
           n / ((t - b) / 2) * v1 + (-b / ((t - b) / 2) - 1) * v2,
           (n / ((f - n) / 2) + 1) * v2 + -(n * f / ((f - n) / 2)) * v3,
           v2] := by
    intro v0 v1 v2 v3
    unfold transformPoint
    rw [hb.2.1, hrange]
    simp only [List.map_cons, List.map_nil, List.sum_cons, List.sum_nil,
      hg 0 0 (by omega) (by omega), hg 0 1 (by omega) (by omega),
      hg 0 2 (by omega) (by omega), hg 0 3 (by omega) (by omega),
      hg 1 0 (by omega) (by omega), hg 1 1 (by omega) (by omega),
      hg 1 2 (by omega) (by omega), hg 1 3 (by omega) (by omega),
      hg 2 0 (by omega) (by omega), hg 2 1 (by omega) (by omega),
      hg 2 2 (by omega) (by omega), hg 2 3 (by omega) (by omega),
      hg 3 0 (by omega) (by omega), hg 3 1 (by omega) (by omega),
      hg 3 2 (by omega) (by omega), hg 3 3 (by omega) (by omega)]
    norm_num
  have near1 : transformPoint
      (prototype.setFrustum (new 4 : GLMatrix α) l r b t n f).receiver [l, b, n, 1]
        = [-n, -n, -n, n] := by
    rw [apply]
    simp only [List.cons.injEq, and_true]
    refine ⟨?_, ?_, ?_⟩ <;> field_simp <;> ring
  have near2 : transformPoint
      (prototype.setFrustum (new 4 : GLMatrix α) l r b t n f).receiver [r, t, n, 1]
        = [n, n, -n, n] := by
    rw [apply]
    simp only [List.cons.injEq, and_true]
    refine ⟨?_, ?_, ?_⟩ <;> field_simp <;> ring
  have far : ∀ x y, ∃ p q, transformPoint
      (prototype.setFrustum (new 4 : GLMatrix α) l r b t n f).receiver [x, y, f, 1]
        = [p, q, f, f] := by
    intro x y
    refine ⟨n / ((r - l) / 2) * x + (-l / ((r - l) / 2) - 1) * f,
      n / ((t - b) / 2) * y + (-b / ((t - b) / 2) - 1) * f, ?_⟩
    rw [apply]
    simp only [List.cons.injEq, and_true, true_and]
    field_simp
    ring
  refine ⟨_, frustum_eq l r b t n f, near1, near2, far, ?_, ?_, ?_⟩
  · intro hn
    rw [near1]
    simp only [perspectiveDivide, List.cons.injEq, and_true]
    refine ⟨?_, ?_, ?_⟩ <;> field_simp
  · intro hn
    rw [near2]
    simp only [perspectiveDivide, List.cons.injEq, and_true]
    refine ⟨?_, ?_, ?_⟩ <;> field_simp
  · intro hf x y
    obtain ⟨p, q, e⟩ := far x y
    refine ⟨p / f, q / f, ?_⟩
    rw [e]
    simp only [perspectiveDivide, List.cons.injEq, and_true, true_and]
    field_simp

theorem frustum_maps_volume_witness :
    (0 : Rat) ≠ 4 ∧ (-1 : Rat) ≠ 1 ∧ (1 : Rat) ≠ 3 ∧
    ∃ F, frustum (0 : Rat) 4 (-1) 1 1 3 = .ok F ∧
      transformPoint F [0, -1, 1, 1] = [-1, -1, -1, 1] ∧
      transformPoint F [4, 1, 1, 1] = [1, 1, -1, 1] :=
  ⟨by norm_num, by norm_num, by norm_num,
    (frustum_maps_volume 0 4 (-1) 1 1 3 (by norm_num) (by norm_num) (by norm_num)).imp
      (fun _ h => ⟨h.1, h.2.1, h.2.2.1⟩)⟩

/-- C17: over the real numbers, for a matrix `M` built with dimension `d >= 3`, every
angle and every axis that is not the zero vector, `rotate(angle, ax, ay, az)`
followed by `rotate(-angle, ax, ay, az)` returns both times and leaves exactly the
matrix `M` had before. -/
theorem rotate_then_opposite (d : Nat) (M : GLMatrix Real) (hM : Built d M) (hd : 3 ≤ d)
    (angle ax ay az : Real) (haxis : ¬(ax = 0 ∧ ay = 0 ∧ az = 0)) :
    (prototype.rotate ⟨Real.sqrt, Real.cos, Real.sin, Real.tan, Real.pi⟩ M
      angle ax ay az).thrown = none ∧
    (prototype.rotate ⟨Real.sqrt, Real.cos, Real.sin, Real.tan, Real.pi⟩
      (prototype.rotate ⟨Real.sqrt, Real.cos, Real.sin, Real.tan, Real.pi⟩ M
        angle ax ay az).receiver (-angle) ax ay az).thrown = none ∧
    (prototype.rotate ⟨Real.sqrt, Real.cos, Real.sin, Real.tan, Real.pi⟩
      (prototype.rotate ⟨Real.sqrt, Real.cos, Real.sin, Real.tan, Real.pi⟩ M
        angle ax ay az).receiver (-angle) ax ay az).receiver = M := by
  obtain ⟨t1, b1, _⟩ := rotate_get ⟨Real.sqrt, Real.cos, Real.sin, Real.tan, Real.pi⟩
    hM hd angle ax ay az
  obtain ⟨t2, _, _⟩ := rotate_get ⟨Real.sqrt, Real.cos, Real.sin, Real.tan, Real.pi⟩
    b1 hd (-angle) ax ay az
  refine ⟨t1, t2, ?_⟩
  have hpos : 0 < ax * ax + ay * ay + az * az := by
    have hx := mul_self_nonneg ax
    have hy := mul_self_nonneg ay
    have hz := mul_self_nonneg az
    rcases lt_or_eq_of_le (add_nonneg (add_nonneg hx hy) hz) with h | h
    · exact h
    · exfalso
      apply haxis
      refine ⟨mul_self_eq_zero.mp (by linarith), mul_self_eq_zero.mp (by linarith),
        mul_self_eq_zero.mp (by linarith)⟩
  have hm : Real.sqrt (ax * ax + ay * ay + az * az) * Real.sqrt (ax * ax + ay * ay + az * az)
      = ax * ax + ay * ay + az * az := Real.mul_self_sqrt (le_of_lt hpos)
  have hm0 : Real.sqrt (ax * ax + ay * ay + az * az) ≠ 0 :=
    (Real.sqrt_ne_zero'.mpr hpos)
  apply rotate_back ⟨Real.sqrt, Real.cos, Real.sin, Real.tan, Real.pi⟩ hM hd angle ax ay az
  · show Real.sin (-angle * Real.pi / 180) = -Real.sin (angle * Real.pi / 180)
    rw [neg_mul, neg_div, Real.sin_neg]
  · show Real.cos (-angle * Real.pi / 180) = Real.cos (angle * Real.pi / 180)
    rw [neg_mul, neg_div, Real.cos_neg]
  · show Real.sin (angle * Real.pi / 180) * Real.sin (angle * Real.pi / 180)
      + Real.cos (angle * Real.pi / 180) * Real.cos (angle * Real.pi / 180) = 1
    have h := Real.sin_sq_add_cos_sq (angle * Real.pi / 180)
    rw [sq, sq] at h
    exact h
  · show ax / Real.sqrt (ax * ax + ay * ay + az * az)
        * (ax / Real.sqrt (ax * ax + ay * ay + az * az))
      + ay / Real.sqrt (ax * ax + ay * ay + az * az)
        * (ay / Real.sqrt (ax * ax + ay * ay + az * az))
      + az / Real.sqrt (ax * ax + ay * ay + az * az)
        * (az / Real.sqrt (ax * ax + ay * ay + az * az)) = 1
    rw [div_mul_div_comm, div_mul_div_comm, div_mul_div_comm, ← add_div, ← add_div, hm]
    exact div_self (ne_of_gt hpos)

theorem rotate_then_opposite_witness :
    Built 3 (prototype.set (identity 3 : GLMatrix Real) 0 2 7) ∧ 3 ≤ 3 ∧
    ¬((1 : Real) = 0 ∧ (2 : Real) = 0 ∧ (2 : Real) = 0) ∧
    (prototype.rotate ⟨Real.sqrt, Real.cos, Real.sin, Real.tan, Real.pi⟩
      (prototype.rotate ⟨Real.sqrt, Real.cos, Real.sin, Real.tan, Real.pi⟩
        (prototype.set (identity 3 : GLMatrix Real) 0 2 7) 30 1 2 2).receiver
      (-30) 1 2 2).receiver
      = prototype.set (identity 3 : GLMatrix Real) 0 2 7 :=
  ⟨built_set (built_identity (by decide)) (by decide) (by decide) 7, by decide,
    by norm_num,
    (rotate_then_opposite 3 _
      (built_set (built_identity (by decide)) (by decide) (by decide) 7) (by decide)
      30 1 2 2 (by norm_num)).2.2⟩

/-- C19, for exact arithmetic (a field of characteristic 0): for `T = tan(fov*PI/360)`
with `T != 0`, `aspect != 0`, `n != 0` and
`n != f`, `perspective(fov, aspect, n, f)` returns the 4x4 matrix with
`(0,0) = 1/(aspect*T)`, `(1,1) = 1/T`, `(0,2) = (1,2) = 0`, `(2,2) = (f+n)/(f-n)`,
`(2,3) = -2*n*f/(f-n)`, `(3,2) = 1` and `0` everywhere else. -/
theorem perspective_entries [Field α] [CharZero α] (Math : JSMath α)
    (fov : α) ( aspectRatio : α) (n f : α)
    (hT : Math.tan (fov * Math.PI / 360) ≠ 0) (ha : aspectRatio ≠ 0) (hn : n ≠ 0)
    (hnf : n ≠ f) :
    perspective Math fov aspectRatio n f
      = .ok ⟨4, 16,
          [1 / ( aspectRatio * Math.tan (fov * Math.PI / 360)), 0, 0, 0,
           0, 1 / Math.tan (fov * Math.PI / 360), 0, 0,
           0, 0, (f + n) / (f - n), 1,
           0, 0, -2 * n * f / (f - n), 0]⟩ := by
  have hrad : degreeToRadian Math fov / 2 = fov * Math.PI / 360 := by
    unfold degreeToRadian
    rw [div_div]
    norm_num
  have hfn : f - n ≠ 0 := sub_ne_zero.mpr (Ne.symm hnf)
  have hnew : Built 4 (new 4 : GLMatrix α) := built_new (by omega)
  unfold perspective prototype.setPerspective
  dsimp only
  rw [returned_ok (setFrustum_ok hnew (Nat.le_refl 4) _ _ _ _ _ _).1, setFrustum_new4, hrad]
  generalize Math.tan (fov * Math.PI / 360) = T at hT
  have e00 : n / ((-(-(n * T) * aspectRatio) - -(n * T) * aspectRatio) / 2)
      = 1 / ( aspectRatio * T) := by
    field_simp
    ring
  have e11 : n / ((n * T - -(n * T)) / 2) = 1 / T := by
    field_simp
  have e02 : -(-(n * T) * aspectRatio)
      / ((-(-(n * T) * aspectRatio) - -(n * T) * aspectRatio) / 2) - 1 = 0 := by
    field_simp
  have e12 : - -(n * T) / ((n * T - -(n * T)) / 2) - 1 = 0 := by
    field_simp
  have e22 : n / ((f - n) / 2) + 1 = (f + n) / (f - n) := by
    field_simp
    ring
  have e23 : -(n * f / ((f - n) / 2)) = -2 * n * f / (f - n) := by
    rw [div_div_eq_mul_div]
    ring
  rw [e00, e11, e02, e12, e22, e23]

theorem perspective_entries_witness :
    (120 : Rat) * 3 / 360 ≠ 0 ∧ (2 : Rat) ≠ 0 ∧ (1 : Rat) ≠ 0 ∧ (1 : Rat) ≠ 3 ∧
    perspective ⟨fun a => a, fun _ => 1, fun _ => 0, fun a => a, 3⟩ (120 : Rat) 2 1 3
      = .ok ⟨4, 16,
          [1 / (2 * (120 * 3 / 360)), 0, 0, 0,
           0, 1 / (120 * 3 / 360), 0, 0,
           0, 0, (3 + 1) / (3 - 1), 1,
           0, 0, -2 * 1 * 3 / (3 - 1), 0]⟩ :=
  ⟨by norm_num, by norm_num, by norm_num, by norm_num,
    perspective_entries ⟨fun a => a, fun _ => 1, fun _ => 0, fun a => a, 3⟩ 120 2 1 3
      (by norm_num) (by norm_num) (by norm_num) (by norm_num)⟩

/-- C20 (the code at the failing input): the constructor called with dimension `0`
falls back to dimension 4 but computes `size` from the argument, so it creates
`size = 0` and no elements instead of a 4x4 zero matrix. -/
theorem new_zero_not_well_formed :
    (new 0 : GLMatrix Int) = ⟨4, 0, []⟩ ∧
    (new 0 : GLMatrix Int).size ≠ 16 ∧
    (new 0 : GLMatrix Int).elements.length
      ≠ (new 0 : GLMatrix Int).dimension * (new 0 : GLMatrix Int).dimension := by
  decide

/-! ### The same properties on binary64 numbers -/

open Binary64 in
/-- C18 as stated fails on binary64 numbers: `orthographic(0.1, 0.4, -1, 1, 1, 3)`
sends the corner `(0.1, -1, 1, 1)` to `(-0.9999999999999999, -1, -1, 1)`, whose first
component is not `-1`. -/
theorem orthographic_box_binary64 :
    (decimal 1 1 ≠ decimal 4 1 ∧ (-1 : Binary64) ≠ 1 ∧ (1 : Binary64) ≠ 3) ∧
    (orthographic (decimal 1 1) (decimal 4 1) (-1) 1 1 3).toOption.map
        (fun O => transformPoint O [decimal 1 1, -1, 1, 1])
      = some [decimal (-9999999999999999) 16, -1, -1, 1] ∧
    ¬ ∃ O, orthographic (decimal 1 1) (decimal 4 1) (-1) 1 1 3 = .ok O ∧
        transformPoint O [decimal 1 1, -1, 1, 1] = [-1, -1, -1, 1] ∧
        transformPoint O [decimal 4 1, 1, 3, 1] = [1, 1, 1, 1] := by
  have value : (orthographic (decimal 1 1) (decimal 4 1) (-1) 1 1 3).toOption.map
        (fun O => transformPoint O [decimal 1 1, -1, 1, 1])
      = some [decimal (-9999999999999999) 16, -1, -1, 1] := by decide!
  refine ⟨by decide!, value, ?_⟩
  rintro ⟨O, hO, h1, -⟩
  rw [hO] at value
  simp only [Except.toOption, Option.map_some', Option.some.injEq] at value
  rw [h1] at value
  exact absurd value (by decide!)

open Binary64 in
/-- C16 as stated fails on binary64 numbers: `frustum(0.1, 0.7, 0.2, 0.9, 0.3, 1.1)`
sends the near corner `(0.1, 0.2, 0.3, 1)` to
`(-0.30000000000000004, -0.30000000000000004, -0.29999999999999993, 0.3)` instead of
`(-0.3, -0.3, -0.3, 0.3)`, and the far point `(0.5, 0.5, 1.1, 1)` to a point with
third component `1.1000000000000003` instead of `1.1`. -/
theorem frustum_volume_binary64 :
    (decimal 1 1 ≠ decimal 7 1 ∧ decimal 2 1 ≠ decimal 9 1 ∧ decimal 3 1 ≠ decimal 11 1) ∧
    (frustum (decimal 1 1) (decimal 7 1) (decimal 2 1) (decimal 9 1) (decimal 3 1)
        (decimal 11 1)).toOption.map
        (fun F => transformPoint F [decimal 1 1, decimal 2 1, decimal 3 1, 1])
      = some [decimal (-30000000000000004) 17, decimal (-30000000000000004) 17,
          decimal (-29999999999999993) 17, decimal 3 1] ∧
    (frustum (decimal 1 1) (decimal 7 1) (decimal 2 1) (decimal 9 1) (decimal 3 1)
        (decimal 11 1)).toOption.map
        (fun F => (transformPoint F [decimal 5 1, decimal 5 1, decimal 11 1, 1]).getD 2 0)
      = some (decimal 11000000000000003 16) ∧
    decimal 11000000000000003 16 ≠ decimal 11 1 ∧
    ¬ ∃ F, frustum (decimal 1 1) (decimal 7 1) (decimal 2 1) (decimal 9 1) (decimal 3 1)
          (decimal 11 1) = .ok F ∧
        transformPoint F [decimal 1 1, decimal 2 1, decimal 3 1, 1]
          = [-decimal 3 1, -decimal 3 1, -decimal 3 1, decimal 3 1] := by
  have value : (frustum (decimal 1 1) (decimal 7 1) (decimal 2 1) (decimal 9 1)
        (decimal 3 1) (decimal 11 1)).toOption.map
        (fun F => transformPoint F [decimal 1 1, decimal 2 1, decimal 3 1, 1])
      = some [decimal (-30000000000000004) 17, decimal (-30000000000000004) 17,
          decimal (-29999999999999993) 17, decimal 3 1] := by decide!
  refine ⟨by decide!, value, by decide!, by decide!, ?_⟩
  rintro ⟨F, hF, h1⟩
  rw [hF] at value
  simp only [Except.toOption, Option.map_some', Option.some.injEq] at value
  rw [h1] at value
  exact absurd value (by decide!)

open Binary64 in
/-- C19 as stated fails on binary64 numbers: with `Math.tan(70*PI/360)` equal to
`0.7002075382097097`, `perspective(70, 0.7, 3, 11)` stores `2.0402114382030208` at
`(0,0)`, while `1/(aspect*T)` is `2.040211438203021`. -/
theorem perspective_entries_binary64 :
    (mathTable.tan (70 * mathTable.PI / 360) = decimal 7002075382097097 16 ∧
      mathTable.tan (70 * mathTable.PI / 360) ≠ 0 ∧ decimal 7 1 ≠ 0 ∧
      (3 : Binary64) ≠ 0 ∧ (3 : Binary64) ≠ 11) ∧
    (perspective mathTable 70 (decimal 7 1) 3 11).toOption.map
        (fun P => prototype.get P 0 0)
      = some (decimal 20402114382030208 16) ∧
    1 / (decimal 7 1 * mathTable.tan (70 * mathTable.PI / 360))
      = decimal 2040211438203021 15 ∧
    decimal 20402114382030208 16 ≠ decimal 2040211438203021 15 ∧
    ¬ perspective mathTable 70 (decimal 7 1) 3 11
      = .ok ⟨4, 16,
          [1 / (decimal 7 1 * mathTable.tan (70 * mathTable.PI / 360)), 0, 0, 0,
           0, 1 / mathTable.tan (70 * mathTable.PI / 360), 0, 0,
           0, 0, (11 + 3) / (11 - 3), 1,
           0, 0, -2 * 3 * 11 / (11 - 3), 0]⟩ := by
  have value : (perspective mathTable 70 (decimal 7 1) 3 11).toOption.map
        (fun P => prototype.get P 0 0)
      = some (decimal 20402114382030208 16) := by decide!
  refine ⟨by decide!, value, by decide!, by decide!, ?_⟩
  intro h
  rw [h] at value
  exact absurd value (by decide!)

open Binary64 in
/-- C15 as stated fails on binary64 numbers: with `Math.cos(90*PI/180)` equal to
`6.123233995736766e-17`, `Math.sin` of the same angle and `Math.sqrt(1)` equal to
`1`, `identity(3).rotate(90, 0,0,1)` stores `1.1102230246251565e-16` at `(0,0)`, the
rounded value of `1 - (1 - cos t)`, and not `cos t`. -/
theorem rotate_rodrigues_binary64 :
    (mathTable.cos (90 * mathTable.PI / 180) = decimal 6123233995736766 32 ∧
      mathTable.sin (90 * mathTable.PI / 180) = 1 ∧
      mathTable.sqrt (0 * 0 + 0 * 0 + 1 * 1) = 1) ∧
    prototype.get (prototype.rotate mathTable (identity 3) 90 0 0 1).receiver 0 0
      = decimal 11102230246251565 32 ∧
    decimal 11102230246251565 32 ≠ decimal 6123233995736766 32 ∧
    ¬ prototype.rotate mathTable (identity 3) 90 0 0 1
      = ⟨⟨3, 9,
          [mathTable.cos (90 * mathTable.PI / 180), mathTable.sin (90 * mathTable.PI / 180),
           0, -mathTable.sin (90 * mathTable.PI / 180),
           mathTable.cos (90 * mathTable.PI / 180), 0, 0, 0, 1]⟩, none⟩ := by
  have value :
      prototype.get (prototype.rotate mathTable (identity 3) 90 0 0 1).receiver 0 0
        = decimal 11102230246251565 32 := by decide!
  refine ⟨by decide!, value, by decide!, ?_⟩
  intro h
  rw [h] at value
  exact absurd value (by decide!)

end Properties

end GLMatrix

end GLMatrixJS
